import Mathlib

/- Verification of the RTG routing-table generator: a shallow embedding of the
   topology builder (rth/virtual_building/network_creator.py), the option
   handling (rth/core/dispatcher.py), the path-selection filters and the ants
   discovery process (rth/virtual_building/ants.py, utils.py), together with
   theorems settling the specification claims about them. -/

namespace RTG

/-! ## Path-selection helpers (utils.py) -/

/-- Loop of smaller_of_list (utils.py lines 32-43): keep the first list whose
length is strictly smaller than the best seen so far. -/
def solLoop (best : List Nat) : List (List Nat) → List Nat
  | [] => best
  | x :: xs => if x.length < best.length then solLoop x xs else solLoop best xs

/-- smaller_of_list (utils.py lines 28-43) with return_index=False; none models
the crash on an empty input list (given[None]). -/
def smallerOfList : List (List Nat) → Option (List Nat)
  | [] => none
  | [x] => some x
  | x :: xs => some (solLoop x xs)

/-- number_of_matching_in_list (utils.py lines 81-87). -/
def numberOfMatchingInList (liste : List Nat) : List Nat → Nat
  | [] => 0
  | e :: rest => (if e ∈ liste then 1 else 0) + numberOfMatchingInList liste rest

/-- list_preferences_from_paths (utils.py lines 77-78). -/
def listPreferencesFromPaths (paths : List (List Nat)) (preferred : List Nat) :
    List Nat :=
  paths.map fun p => numberOfMatchingInList preferred p

/-- Loop of list_of_largest_of_list (utils.py lines 52-64): the reference value
`firstVal` is taken from the first element and is never updated afterwards,
even when the kept set is flushed by a larger element. -/
def llolLoop (firstVal : Nat) (indices : List Nat) (j : Nat) :
    List Nat → List Nat
  | [] => indices
  | x :: xs =>
    let ind1 := if x = firstVal then indices ++ [j] else indices
    let ind2 := if firstVal < x then [j] else ind1
    llolLoop firstVal ind2 (j + 1) xs

/-- list_of_largest_of_list (utils.py lines 46-66) with return_index=True. -/
def listOfLargestOfListIdx : List Nat → List Nat
  | [] => []
  | [_] => [0]
  | x :: xs => llolLoop x [0] 1 xs

/-- The value stored per pair in hops after filtering: a single chosen path
when the equitemporality filter fired, else the surviving list. -/
inductive PathsOrPath where
  | single (p : List Nat)
  | multi (ps : List (List Nat))
  deriving DecidableEq

/-- The options dictionary as filter_paths_from_hops reads it: each field is
none when the key is absent. -/
structure AntsOptions where
  preferredRouters : Option (List Nat)
  equitemporality : Option Bool
  deriving DecidableEq

/-- filter_paths_from_hops (ants.py lines 586-626) applied to one pair's list
of discovered paths: preferred-routers narrowing (only when the option is set
to a non-empty list and more than one path exists), then equitemporality
selection; none models the crash of smaller_of_list on an empty list. -/
def filterPair (o : AntsOptions) (v : List (List Nat)) : Option PathsOrPath :=
  let pv := o.preferredRouters.getD []
  let v1 :=
    if ¬ pv.isEmpty ∧ 1 < v.length then
      let preferences := listPreferencesFromPaths v pv
      let largest := listOfLargestOfListIdx preferences
      (v.enum.filter fun np => decide (np.1 ∈ largest)).map fun np => np.2
    else v
  if o.equitemporality = some true then
    if v1.length = 1 then some (.single (v1.getD 0 []))
    else (smallerOfList v1).map .single
  else some (.multi v1)

/-! ## Master-router determination (utils.py, get_master_router) -/

/-- A router as get_master_router sees it. -/
structure Router where
  internet : Bool
  deriving DecidableEq

instance : Inhabited Router := ⟨⟨false⟩⟩

/-- The masters list built by get_master_router (utils.py lines 12-16): the
indices of routers whose internet flag is set. -/
def mastersList (routers : List Router) : List Nat :=
  (List.range routers.length).filter fun i => (routers.getD i default).internet

/-- get_master_router (utils.py lines 4-25): error true models
MasterRouterError(True) (no master), error false models
MasterRouterError(False) (several masters); on success the sole index is
returned. AntsDiscovery.init calls this before any sweep or find runs. -/
def getMasterRouter (routers : List Router) : Except Bool Nat :=
  match mastersList routers with
  | [] => .error true
  | [m] => .ok m
  | _ => .error false

/-! ## Option handling (dispatcher.py, set_option) -/

/-- The Python runtime types relevant to set_option; typ is the metaclass
`type` of which every class object is an instance. -/
inductive PyType where
  | list | str | int | bool | none | typ
  deriving DecidableEq

/-- A fragment of Python's runtime values, enough for set_option's
isinstance check. -/
inductive PyValue where
  | vList (elems : List Nat)
  | vStr (s : String)
  | vInt (n : Int)
  | vBool (b : Bool)
  | vNone
  | vType (t : PyType)
  deriving DecidableEq

/-- Python's type() on the modelled values: the type of a class object is the
metaclass typ. -/
def pyTypeOf : PyValue → PyType
  | .vList _ => .list
  | .vStr _ => .str
  | .vInt _ => .int
  | .vBool _ => .bool
  | .vNone => .none
  | .vType _ => .typ

/-- Python's isinstance restricted to the modelled exact types. -/
def pyIsInstance (v : PyValue) (t : PyType) : Bool := pyTypeOf v == t

inductive OptionErr where
  | wrongName
  | wrongValueType
  deriving DecidableEq

/-- Dispatcher.__possible_options (dispatcher.py lines 26-28): the map from
option name to the expected value class. -/
def possibleOptions : List (String × PyType) := [("preferred_routers", PyType.list)]

/-- Dispatcher.set_option (dispatcher.py lines 49-56). Unknown names fail
first; then the value is checked with
isinstance(value, type(self.__possible_options[option])), where the inner
type() call is applied to the stored class object itself. -/
def setOption (opts : List (String × PyValue)) (option : String)
    (value : PyValue) : Except OptionErr (List (String × PyValue)) :=
  match possibleOptions.find? fun kv => kv.1 == option with
  | Option.none => .error .wrongName
  | some kv =>
    if ¬ pyIsInstance value (pyTypeOf (.vType kv.2)) then .error .wrongValueType
    else .ok (opts.map fun e => if e.1 = option then (e.1, value) else e)

/-! ## Name resolution (network_creator.py, name_to_uid) -/

/-- The scanning loop of name_to_uid (network_creator.py lines 190-197),
carrying the index of the head of the remaining list. -/
def nameToUidGo (name : String) : List String → Nat → Nat
  | [], _ => 0
  | x :: xs, i => if x = name then i else nameToUidGo name xs (i + 1)

/-- name_to_uid (network_creator.py lines 180-197): id_ starts at 0 and is
only changed when a matching name is found, so an absent name resolves to 0. -/
def nameToUid (names : List String) (name : String) : Nat :=
  nameToUidGo name names 0

/-- The name lists of a built topology, as name_to_uid consults them. -/
structure MiniTopo where
  routersNames : List String
  subnetsNames : List String

/-- The name resolutions performed at the head of connect_router_to_networks
(network_creator.py lines 389-392) for one attachment entry. -/
def resolveAttachment (t : MiniTopo) (routerName subnetName : String) :
    Nat × Nat :=
  (nameToUid t.routersNames routerName, nameToUid t.subnetsNames subnetName)

/-! ## Address auto-assignment (network_creator.py, connect_router_to_networks)

Modelled from the spec where nettools is involved: the nettools package that
computes network ranges and address types is external to this repository.  Per
the spec, a subnet's range runs from its network address to its broadcast
address, an assigned host IP must lie strictly between the two, and ip_before
steps to the numerically previous address; addresses are host-order naturals. -/

/-- A subnetwork for address assignment: network address, broadcast address
and the (router uid, ip) attachments in insertion order. -/
structure SubnetB where
  netStart : Nat
  netEnd : Nat
  routers : List (Nat × Nat)
  deriving DecidableEq

/-- Whether some attached router already holds the given ip. -/
def ipTaken (s : SubnetB) (ip : Nat) : Bool :=
  s.routers.any fun rp => rp.2 == ip

/-- check_ip_availability (network_creator.py lines 360-387): error true is
the off-range failure (IPOffNetworkRangeException, not caught by the retry
loop), error false the already-attributed failure (caught and retried). -/
def checkIpAvailability (s : SubnetB) (ip : Nat) : Except Bool Unit :=
  if ¬ (s.netStart < ip ∧ ip < s.netEnd) then .error true
  else if ipTaken s ip then .error false
  else .ok ()

/-- The auto-assignment retry loop (network_creator.py lines 403-412): the
argument is the previous candidate, the next candidate is its predecessor;
scanning continues past taken addresses and aborts on an off-range one. -/
def autoAssignGo (s : SubnetB) : Nat → Except Unit Nat
  | 0 => .error ()
  | ip + 1 =>
    match checkIpAvailability s ip with
    | .error true => .error ()
    | .error false => autoAssignGo s ip
    | .ok _ => .ok ip

/-- Auto-assignment of an omitted IP, scanning downward from the broadcast
address (network_creator.py lines 403-412). -/
def autoAssign (s : SubnetB) : Except Unit Nat :=
  autoAssignGo s s.netEnd

/-- Attaching a router to a subnetwork with no supplied IP
(network_creator.py lines 399-415): auto-assign, then record on the subnet. -/
def connectAuto (s : SubnetB) (routerUid : Nat) : Except Unit (SubnetB × Nat) :=
  match autoAssign s with
  | .error e => .error e
  | .ok ip => .ok ({ s with routers := s.routers ++ [(routerUid, ip)] }, ip)

/-! ## Subnet overlap checking (network_creator.py, create_network) -/

/-- An IPv4 address as its four byte values. -/
structure Addr where
  a : Nat
  b : Nat
  c : Nat
  d : Nat
  deriving DecidableEq

/-- Digits of n in base 10, least significant first; the first argument is
fuel (n itself suffices). -/
def decDigitsGo : Nat → Nat → List Nat
  | 0, _ => []
  | _ + 1, 0 => []
  | f + 1, n + 1 => (n + 1) % 10 :: decDigitsGo f ((n + 1) / 10)

/-- The decimal rendering of n (Python's str(n)) as a digit list, most
significant digit first. -/
def decStr (n : Nat) : List Nat :=
  if n = 0 then [0] else (decDigitsGo n n).reverse

/-- The value of a little-endian digit list; inverts decDigitsGo. -/
def decValLE : List Nat → Nat
  | [] => 0
  | d :: ds => d + 10 * decValLE ds

/-- Whether an Except value is a success. -/
def exceptOk {ε α : Type} : Except ε α → Bool
  | .ok _ => true
  | .error _ => false

/-- The rendered string "a.b.c.d" of an address as a digit/dot list, the
value 10 standing for the dot character. -/
def addrChars (x : Addr) : List Nat :=
  decStr x.a ++ 10 :: (decStr x.b ++ 10 :: (decStr x.c ++ 10 :: decStr x.d))

/-- Python str.startswith on rendered digit/dot lists. -/
def strStarts (s p : List Nat) : Bool := s.take p.length == p

/-- The overlap test of create_network (network_creator.py lines 283-309) for
a new subnet (curMask, cur) against an existing one (subMask, sub).  Equal
masks compare the rendered start strings.  Unequal masks take big = the start
of the shorter-mask subnet (accessed byte-wise, as the Python list produced by
split('.')) and small = the rendered start of the longer-mask subnet, then
bucket on the NEW subnet's mask length, combining str.startswith checks on
small with a less-or-equal comparison on one byte of big. -/
def overlapCheck (curMask : Nat) (cur : Addr) (subMask : Nat) (sub : Addr) :
    Bool :=
  if curMask = subMask then addrChars cur == addrChars sub
  else
    let big := if curMask < subMask then cur else sub
    let small := if curMask < subMask then sub else cur
    if curMask ≤ 8 then decide (big.a ≤ small.a)
    else if curMask ≤ 16 then
      strStarts (addrChars small) (decStr big.a) && decide (big.b ≤ small.b)
    else if curMask ≤ 24 then
      strStarts (addrChars small) (decStr big.a ++ 10 :: decStr big.b)
        && decide (big.c ≤ small.c)
    else if curMask ≤ 32 then decide (big.d ≤ small.d)
    else false

/-- The creation state of NetworkCreator restricted to what the overlap loop
reads: the (range start, mask length) of every created subnet in creation
order.  Modelled from the spec where nettools is involved: nettools computes
the network range from IP+mask; the creation address is taken to be the range
start, as in all of the spec's (aligned) examples. -/
structure NC where
  subnets : List (Addr × Nat)
  deriving DecidableEq

/-- create_network's overlap loop (network_creator.py lines 278-312): the
first overlapping existing subnet raises OverlappingError; otherwise the new
subnet is recorded. -/
def createNetwork (nc : NC) (ip : Addr) (mask : Nat) : Except (Addr × Nat) NC :=
  match nc.subnets.find? fun p => overlapCheck mask ip p.2 p.1 with
  | some p => .error p
  | Option.none => .ok ⟨nc.subnets ++ [(ip, mask)]⟩

/-- The four bytes of an address as a list. -/
def addrBytes (x : Addr) : List Nat := [x.a, x.b, x.c, x.d]

/-- Modelled from the spec: "subnet ranges never overlap (equal masks overlap
iff identical start address; unequal masks overlap iff one's start address
falls inside the other's byte-aligned prefix)".  The byte-aligned prefix of
the larger (shorter-mask) network is read as its first (mask / 8) bytes, and
the more specific network's start falls inside it when those bytes agree. -/
def overlapSpecRule (m1 : Nat) (s1 : Addr) (m2 : Nat) (s2 : Addr) : Bool :=
  if m1 = m2 then s1 == s2
  else
    let bigM := min m1 m2
    let bigS := if m1 < m2 then s1 else s2
    let smallS := if m1 < m2 then s2 else s1
    (addrBytes smallS).take (bigM / 8) == (addrBytes bigS).take (bigM / 8)

/-! ## The ants discovery process (ants.py)

The adjacency view is given by two lists: rl (links['routers']) maps a router
uid to the uids of its connected subnets, sl (links['subnets']) maps a subnet
uid to the uids of the routers attached to it.  The discovery variant is
disc : Option Nat, none for a sweep and some objective for a find run. -/

/-- The possible states of an ant (ants.py, AntState). -/
inductive AntState where
  | alive
  | dead
  | waiting
  deriving DecidableEq

/-- An ant (ants.py, Ant): state, current position (router, subnet) and the
history of visited subnets and routers, kept in visit order. -/
structure Ant where
  state : AntState
  router : Nat
  subnet : Nat
  histS : List Nat
  histR : List Nat
  deriving DecidableEq

/-- next_hop_type (ants.py lines 146-167), true for a router hop and false for
a subnet hop; none models the defensive exception raised when the router
history is longer than the subnet history. -/
def nextHopType (a : Ant) : Option Bool :=
  if a.histR.length < a.histS.length then some true
  else if a.histS.length = a.histR.length then some false
  else none

/-- Ant.kill (ants.py lines 100-106). -/
def kill (a : Ant) : Ant := { a with state := .dead }

/-- Ant.activate as applied by activate_ants (ants.py lines 350-356): only
waiting ants become alive. -/
def activate (a : Ant) : Ant :=
  if a.state = .waiting then { a with state := .alive } else a

/-- Ant.move_to (ants.py lines 112-122) with the hop type already computed:
the position slot of that type is set and appended to its history. -/
def moveWith (a : Ant) (ht : Bool) (pos : Nat) : Ant :=
  if ht then { a with router := pos, histR := a.histR ++ [pos] }
  else { a with subnet := pos, histS := a.histS ++ [pos] }

/-- Phase-1 branching (ants.py lines 439-460): the dying parent spawns one
waiting child per still-unvisited candidate subnet; the child's history is the
parent's router history minus its last entry plus the parent's router, and the
parent's full subnet history plus the candidate (feed_history "routers").  A
find child landing on the objective records its router history and dies. -/
def spawnSubnets (disc : Option Nat) (parent : Ant) :
    List Nat → List Nat → List (List Nat) →
    List Ant × List Nat × List (List Nat)
  | [], visS, found => ([], visS, found)
  | c :: rest, visS, found =>
    if c ∈ visS then spawnSubnets disc parent rest visS found
    else
      let kid : Ant :=
        { state := .waiting, router := parent.router, subnet := c,
          histS := parent.histS ++ [c],
          histR := parent.histR.dropLast ++ [parent.router] }
      match disc with
      | some obj =>
        if c = obj then
          let r := spawnSubnets disc parent rest (visS ++ [c]) (found ++ [kid.histR])
          (kill kid :: r.1, r.2)
        else
          let r := spawnSubnets disc parent rest (visS ++ [c]) found
          (kid :: r.1, r.2)
      | Option.none =>
        let r := spawnSubnets disc parent rest (visS ++ [c]) found
        (kid :: r.1, r.2)

/-- Phase-2 branching (ants.py lines 509-524): children are seeded through
feed_history "subnets" and no objective check is made. -/
def spawnRouters (parent : Ant) :
    List Nat → List Nat → List Ant × List Nat
  | [], visR => ([], visR)
  | c :: rest, visR =>
    if c ∈ visR then spawnRouters parent rest visR
    else
      let kid : Ant :=
        { state := .waiting, router := c, subnet := parent.subnet,
          histS := parent.histS.dropLast ++ [parent.subnet],
          histR := parent.histR ++ [c] }
      let r := spawnRouters parent rest (visR ++ [c])
      (kid :: r.1, r.2)

/-- One ant's action in the subnet-hop phase (ants.py lines 394-460):
non-alive ants are skipped; no unvisited candidate kills the ant; a single
candidate triggers check_next_move (a find run records a path and dies when
the candidate is the objective); several candidates kill the ant and spawn
children.  The result is the updated ant, its children, the visited-subnets
list and the found paths; none models the defensive exceptions. -/
def subnetHopOne (disc : Option Nat) (rl : List (List Nat)) (a : Ant)
    (visS : List Nat) (found : List (List Nat)) :
    Option (Ant × List Ant × List Nat × List (List Nat)) :=
  if a.state ≠ .alive then some (a, [], visS, found)
  else
    match (rl.getD a.router []).filter fun s => decide (s ∉ visS) with
    | [] => some (kill a, [], visS, found)
    | [c] =>
      match nextHopType a with
      | Option.none => none
      | some ht =>
        let seen := if ht then a.histR else a.histS
        match disc with
        | Option.none =>
          if c ∈ seen then some (kill a, [], visS, found)
          else some (moveWith a ht c, [], visS ++ [c], found)
        | some obj =>
          if c ∈ seen then some (kill a, [], visS, found)
          else if ht = false ∧ c = obj then
            some (kill a, [], visS, found ++ [a.histR])
          else some (moveWith a ht c, [], visS ++ [c], found)
    | cands =>
      let r := spawnSubnets disc a cands visS found
      some (kill a, r.1, r.2)

/-- One ant's action in the router-hop phase (ants.py lines 474-524): both the
sweep and the find variants only consult the first component of
check_next_move there, so the variants behave identically. -/
def routerHopOne (sl : List (List Nat)) (a : Ant) (visR : List Nat) :
    Option (Ant × List Ant × List Nat) :=
  if a.state ≠ .alive then some (a, [], visR)
  else
    match (sl.getD a.subnet []).filter fun r => decide (r ∉ visR) with
    | [] => some (kill a, [], visR)
    | [c] =>
      match nextHopType a with
      | Option.none => none
      | some ht =>
        let seen := if ht then a.histR else a.histS
        if c ∈ seen then some (kill a, [], visR)
        else some (moveWith a ht c, [], visR ++ [c])
    | cands =>
      let r := spawnRouters a cands visR
      some (kill a, r.1, r.2)

/-- The subnet-hop phase over the ant list (ants.py lines 394-460): children
are appended behind all processed ants, matching Python's appends to the
iterated list (appended children are waiting or dead, hence skipped). -/
def phase1 (disc : Option Nat) (rl : List (List Nat)) :
    List Ant → List Nat → List (List Nat) →
    Option (List Ant × List Ant × List Nat × List (List Nat))
  | [], visS, found => some ([], [], visS, found)
  | a :: rest, visS, found => do
    let (a', ks, v, f) ← subnetHopOne disc rl a visS found
    let (m, ks2, v2, f2) ← phase1 disc rl rest v f
    some (a' :: m, ks ++ ks2, v2, f2)

/-- The router-hop phase over the ant list (ants.py lines 474-524). -/
def phase2 (sl : List (List Nat)) :
    List Ant → List Nat → Option (List Ant × List Ant × List Nat)
  | [], visR => some ([], [], visR)
  | a :: rest, visR => do
    let (a', ks, v) ← routerHopOne sl a visR
    let (m, ks2, v2) ← phase2 sl rest v
    some (a' :: m, ks ++ ks2, v2)

inductive AntsErr where
  | tooManyAnts
  | internal
  deriving DecidableEq

/-- The state of one discovery run between rounds. -/
structure St where
  ants : List Ant
  visS : List Nat
  visR : List Nat
  found : List (List Nat)
  deriving DecidableEq

/-- One round of the while loop of ants_discovery_process (ants.py lines
372-536): the agent-population ceiling check, activation, the subnet-hop
phase, activation, the router-hop phase, then removal of the dead ants. -/
def roundStep (disc : Option Nat) (rl sl : List (List Nat)) (s : St) :
    Except AntsErr St :=
  if s.ants.length > 100 then .error .tooManyAnts
  else
    match phase1 disc rl (s.ants.map activate) s.visS s.found with
    | Option.none => .error .internal
    | some (m1, k1, v1, f1) =>
      match phase2 sl ((m1 ++ k1).map activate) s.visR with
      | Option.none => .error .internal
      | some (m2, k2, v2) =>
        .ok { ants := (m2 ++ k2).filter fun a => decide (¬ a.state = .dead),
              visS := v1, visR := v2, found := f1 }

/-- How many elements of univ (after deduplication) are not yet visited. -/
def countNotIn (univ vis : List Nat) : Nat :=
  (univ.dedup.filter fun x => decide (x ∉ vis)).length

/-- Decreasing measure for the round loop: unvisited candidate subnets plus
unvisited candidate routers plus the current agent count. -/
def antsMeasure (rl sl : List (List Nat)) (s : St) : Nat :=
  countNotIn rl.flatten s.visS + countNotIn sl.flatten s.visR + s.ants.length

/-- The while loop of ants_discovery_process run on explicit fuel; none means
the fuel ran out before the loop finished. -/
def runFuel (disc : Option Nat) (rl sl : List (List Nat)) :
    Nat → St → Option (Except AntsErr St)
  | 0, s =>
    match s.ants with
    | [] => some (.ok s)
    | _ :: _ => none
  | fuel + 1, s =>
    match s.ants with
    | [] => some (.ok s)
    | _ :: _ =>
      match roundStep disc rl sl s with
      | .error e => some (.error e)
      | .ok s' => runFuel disc rl sl fuel s'

/-- The while loop of ants_discovery_process, run with antsMeasure as fuel;
the sufficiency theorem below shows the fallback arm is unreachable. -/
def runAnts (disc : Option Nat) (rl sl : List (List Nat)) (s : St) :
    Except AntsErr St :=
  match runFuel disc rl sl (antsMeasure rl sl s) s with
  | some r => r
  | Option.none => .error .internal

/-- INIT of ants_discovery_process (ants.py lines 358-367): one alive ant per
router attached to the starting subnet; those routers and the starting subnet
are marked visited. -/
def initState (sl : List (List Nat)) (subnetStart : Nat) : St :=
  { ants := (sl.getD subnetStart []).map fun r =>
      { state := .alive, router := r, subnet := subnetStart,
        histS := [subnetStart], histR := [r] },
    visS := [subnetStart],
    visR := sl.getD subnetStart [],
    found := [] }

/-- ants_discovery_process (ants.py lines 301-542): returns the visited
subnets, the visited routers and the router paths that reached the objective. -/
def antsDiscoveryProcess (disc : Option Nat) (rl sl : List (List Nat))
    (subnetStart : Nat) :
    Except AntsErr (List Nat × List Nat × List (List Nat)) :=
  (runAnts disc rl sl (initState sl subnetStart)).map fun s =>
    (s.visS, s.visR, s.found)

inductive SweepErr where
  | ants (e : AntsErr)
  | unreachable (subnet total : Nat)
  deriving DecidableEq

/-- sweep_network (ants.py lines 544-562): run a sweep, then raise
UnreachableNetwork at the first subnet uid missing from the visited set, with
total = number of subnets minus the length of the visited list. -/
def sweepNetwork (numSubnets : Nat) (rl sl : List (List Nat))
    (subnetStart : Nat) : Except SweepErr Unit :=
  match antsDiscoveryProcess Option.none rl sl subnetStart with
  | .error e => .error (.ants e)
  | .ok (vs, _, _) =>
    match (List.range numSubnets).find? fun j => decide (j ∉ vs) with
    | some j => .error (.unreachable j (numSubnets - vs.length))
    | Option.none => .ok ()

/-- The count of non-dead ants in a list (what the cleanup step keeps). -/
def ndCount (l : List Ant) : Nat :=
  (l.filter fun a => decide (¬ a.state = .dead)).length

/-- The contribution of a single ant to ndCount. -/
def nd1 (a : Ant) : Nat := if a.state = .dead then 0 else 1

/-! ## Theorems: path selection (claims C1 and C7) -/

/-- The loop of smaller_of_list returns the first element of minimal length:
everything before it is strictly longer, everything after it at least as
long. -/
theorem solLoop_spec (xs : List (List Nat)) : ∀ best : List Nat,
    ∃ pre post, best :: xs = pre ++ solLoop best xs :: post ∧
      (∀ q ∈ pre, (solLoop best xs).length < q.length) ∧
      (∀ q ∈ post, (solLoop best xs).length ≤ q.length) := by
  induction xs with
  | nil =>
    intro best
    exact ⟨[], [], rfl, by simp, by simp⟩
  | cons x xs ih =>
    intro best
    by_cases h : x.length < best.length
    · obtain ⟨pre, post, hdec, hpre, hpost⟩ := ih x
      have hloop : solLoop best (x :: xs) = solLoop x xs := by simp [solLoop, h]
      have hlen : (solLoop x xs).length ≤ x.length := by
        cases pre with
        | nil =>
          have hx : x = solLoop x xs := by
            simpa using congrArg (fun l => l.headD []) hdec
          rw [← hx]
        | cons p ps =>
          have hpx : x = p := by
            simpa using congrArg (fun l => l.headD []) hdec
          have := hpre p (by simp)
          rw [← hpx] at this
          exact le_of_lt this
      refine ⟨best :: pre, post, ?_, ?_, ?_⟩
      · rw [hloop]
        simpa using congrArg (fun l => best :: l) hdec
      · intro q hq
        rw [hloop]
        rcases List.mem_cons.mp hq with rfl | hq
        · exact lt_of_le_of_lt hlen h
        · exact hpre q hq
      · intro q hq
        rw [hloop]
        exact hpost q hq
    · obtain ⟨pre, post, hdec, hpre, hpost⟩ := ih best
      have hloop : solLoop best (x :: xs) = solLoop best xs := by simp [solLoop, h]
      have hbx : best.length ≤ x.length := Nat.le_of_not_lt h
      cases pre with
      | nil =>
        have hr : best = solLoop best xs := by
          simpa using congrArg (fun l => l.headD []) hdec
        have hpost' : xs = post := by simpa using congrArg List.tail hdec
        refine ⟨[], x :: post, ?_, by simp, ?_⟩
        · rw [hloop, ← hr, ← hpost']
          simp
        · intro q hq
          rw [hloop]
          rcases List.mem_cons.mp hq with rfl | hq
          · exact le_trans (le_of_eq (congrArg List.length hr.symm)) hbx
          · exact hpost q hq
      | cons p ps =>
        have hpb : best = p := by
          simpa using congrArg (fun l => l.headD []) hdec
        have htail : xs = ps ++ solLoop best xs :: post := by
          simpa using congrArg List.tail hdec
        refine ⟨best :: x :: ps, post, ?_, ?_, ?_⟩
        · rw [hloop]
          simp only [List.cons_append]
          rw [← htail]
        · intro q hq
          rw [hloop]
          have hbr : (solLoop best xs).length < best.length := by
            have := hpre p (by simp)
            rw [← hpb] at this
            exact this
          rcases List.mem_cons.mp hq with rfl | hq
          · exact hbr
          · rcases List.mem_cons.mp hq with rfl | hq
            · exact lt_of_lt_of_le hbr hbx
            · exact hpre q (by simp [hq])
        · intro q hq
          rw [hloop]
          exact hpost q hq

/-- Claim C1: under the default equitemporality policy (the equitemporality
option set to True and no preferred_routers option), for every pair with at
least one discovered path, the filtered hops entry is a single path of
minimum router-hop count among all discovered paths, and on ties it is the
first minimal path in discovery order. -/
theorem c1_equitemporality_first_minimal (v : List (List Nat)) (hv : v ≠ []) :
    ∃ chosen, filterPair ⟨none, some true⟩ v = some (.single chosen) ∧
      (∀ q ∈ v, chosen.length ≤ q.length) ∧
      ∃ pre post, v = pre ++ chosen :: post ∧
        ∀ q ∈ pre, chosen.length < q.length := by
  match v, hv with
  | [x], _ =>
    refine ⟨x, by simp [filterPair], by simp, [], [], rfl, by simp⟩
  | x :: y :: ys, _ =>
    obtain ⟨pre, post, hdec, hpre, hpost⟩ := solLoop_spec (y :: ys) x
    refine ⟨solLoop x (y :: ys), ?_, ?_, pre, post, hdec, hpre⟩
    · simp [filterPair, smallerOfList]
    · intro q hq
      rw [hdec] at hq
      rcases List.mem_append.mp hq with hq | hq
      · exact le_of_lt (hpre q hq)
      · rcases List.mem_cons.mp hq with rfl | hq
        · exact le_refl _
        · exact hpost q hq

/-- Witness for claim C1 at a concrete path list. -/
theorem c1_witness :
    ([[5, 6], [7], [8]] : List (List Nat)) ≠ [] ∧
      ∃ chosen, filterPair ⟨none, some true⟩ [[5, 6], [7], [8]] =
          some (.single chosen) ∧
        (∀ q ∈ [[5, 6], [7], [8]], chosen.length ≤ q.length) ∧
        ∃ pre post, ([[5, 6], [7], [8]] : List (List Nat)) = pre ++ chosen :: post ∧
          ∀ q ∈ pre, chosen.length < q.length :=
  ⟨by decide, c1_equitemporality_first_minimal [[5, 6], [7], [8]] (by decide)⟩

/-- Claim C7 fails on the code: with preferred routers [1,2,3] and the path
list [[1],[1,2,3],[2,3]], the preference scores are [1,3,2]; the maximum
score 3 is achieved only by the path [1,2,3], yet the filter keeps exactly
[[2,3]] (score 2), because list_of_largest_of_list never updates its running
reference value after flushing the kept set. -/
theorem c7_preferred_filter_keeps_non_maximal :
    filterPair ⟨some [1, 2, 3], none⟩ [[1], [1, 2, 3], [2, 3]] =
        some (.multi [[2, 3]]) ∧
      listPreferencesFromPaths [[1], [1, 2, 3], [2, 3]] [1, 2, 3] = [1, 3, 2] ∧
      listOfLargestOfListIdx [1, 3, 2] = [2] := by decide

/-! ## Theorems: master-router determination (claim C5) -/

/-- Membership in the masters list of get_master_router. -/
theorem mastersList_mem (routers : List Router) (i : Nat) :
    i ∈ mastersList routers ↔
      i < routers.length ∧ (routers.getD i default).internet = true := by
  simp [mastersList, List.mem_filter, List.mem_range]

/-- A nodup list whose members all equal i, with i a member, is [i]. -/
theorem nodup_all_eq {l : List Nat} {i : Nat} (hnd : l.Nodup) (hi : i ∈ l)
    (hall : ∀ x ∈ l, x = i) : l = [i] := by
  match l, hnd, hi with
  | x :: xs, hnd, hi =>
    have hx : x = i := hall x (by simp)
    match xs, hnd, hall with
    | [], _, _ => simp [hx]
    | y :: ys, hnd, hall =>
      have hy : y = i := hall y (by simp)
      have : x ∉ y :: ys := (List.nodup_cons.mp hnd).1
      exact absurd (by simp [hx, hy]) this

/-- Claim C5: get_master_router (called by AntsDiscovery.init before any
discovery runs) fails with MasterRouterError(True) when no router has the
internet flag, fails with MasterRouterError(False) when at least two do, and
returns the unique flagged router's id otherwise. -/
theorem c5_master_router (routers : List Router) :
    ((∀ r ∈ routers, r.internet = false) → getMasterRouter routers = .error true) ∧
      (∀ i j, i < j → j < routers.length →
        (routers.getD i default).internet = true →
        (routers.getD j default).internet = true →
        getMasterRouter routers = .error false) ∧
      (∀ i, i < routers.length → (routers.getD i default).internet = true →
        (∀ j, j < routers.length → (routers.getD j default).internet = true → j = i) →
        getMasterRouter routers = .ok i) := by
  refine ⟨?_, ?_, ?_⟩
  · intro hall
    have hnil : mastersList routers = [] := by
      unfold mastersList
      rw [List.filter_eq_nil_iff]
      intro i hi
      have hlt : i < routers.length := List.mem_range.mp hi
      have : (routers.getD i default).internet = false := by
        rw [List.getD_eq_getElem _ _ hlt]
        exact hall _ (List.getElem_mem hlt)
      simpa [List.getD] using this
    simp [getMasterRouter, hnil]
  · intro i j hij hj hi hint
    have hmi : i ∈ mastersList routers :=
      (mastersList_mem routers i).mpr ⟨lt_trans hij hj, hi⟩
    have hmj : j ∈ mastersList routers :=
      (mastersList_mem routers j).mpr ⟨hj, hint⟩
    match hml : mastersList routers with
    | [] => rw [hml] at hmi; exact absurd hmi (by simp)
    | [m] =>
      rw [hml] at hmi hmj
      have : i = j := by
        have h1 : i = m := by simpa using hmi
        have h2 : j = m := by simpa using hmj
        rw [h1, h2]
      exact absurd this (Nat.ne_of_lt hij)
    | a :: b :: l => simp [getMasterRouter, hml]
  · intro i hi hint huniq
    have hmem : i ∈ mastersList routers := (mastersList_mem routers i).mpr ⟨hi, hint⟩
    have hnd : (mastersList routers).Nodup := (List.nodup_range _).filter _
    have hall : ∀ x ∈ mastersList routers, x = i := by
      intro x hx
      obtain ⟨hx1, hx2⟩ := (mastersList_mem routers x).mp hx
      exact huniq x hx1 hx2
    have : mastersList routers = [i] := nodup_all_eq hnd hmem hall
    simp [getMasterRouter, this]

/-- Witness for claim C5 at a concrete router list. -/
theorem c5_witness :
    (1 < ([⟨false⟩, ⟨true⟩] : List Router).length ∧
        (([⟨false⟩, ⟨true⟩] : List Router).getD 1 default).internet = true) ∧
      getMasterRouter [⟨false⟩, ⟨true⟩] = .ok 1 := by
  refine ⟨by decide, (c5_master_router [⟨false⟩, ⟨true⟩]).2.2 1 (by decide) (by decide) ?_⟩
  intro j hj hint
  have hj2 : j < 2 := by simpa using hj
  interval_cases j
  · exact absurd hint (by decide)
  · rfl

/-! ## Theorems: option handling (claim C9) -/

/-- Claim C9 fails on the code: set_option checks the value against
type(self.__possible_options[option]), which is the metaclass `type`, so a
list value for preferred_routers raises WrongOptionValueType, while a class
object is accepted; only the unknown-name behavior matches the claim. -/
theorem c9_set_option_rejects_lists :
    setOption [("preferred_routers", PyValue.vNone)] "preferred_routers"
        (.vList [1, 2, 3]) = .error .wrongValueType ∧
      setOption [("preferred_routers", PyValue.vNone)] "unknown_option"
        (.vList []) = .error .wrongName ∧
      setOption [("preferred_routers", PyValue.vNone)] "preferred_routers"
        (.vType .int) = .ok [("preferred_routers", PyValue.vType .int)] := by
  refine ⟨rfl, rfl, rfl⟩

/-! ## Theorems: name resolution (claim C10) -/

/-- The scanning loop of name_to_uid returns 0 whatever the carried index
when the name is absent. -/
theorem nameToUidGo_of_not_mem (name : String) :
    ∀ (l : List String) (i : Nat), name ∉ l → nameToUidGo name l i = 0 := by
  intro l
  induction l with
  | nil => intro i _; rfl
  | cons x xs ih =>
    intro i hmem
    have hx : ¬ x = name := fun h => hmem (by simp [h])
    simp only [nameToUidGo, if_neg hx]
    exact ih (i + 1) (fun h => hmem (by simp [h]))

/-- Claim C10: name_to_uid resolves any absent name to 0 (the id of the
first-created entity), and consequently connect_router_to_networks resolves
unknown router and subnet names to the entities with id 0 instead of raising
a name-resolution error. -/
theorem c10_unknown_name_resolves_to_zero :
    (∀ (names : List String) (name : String), name ∉ names →
        nameToUid names name = 0) ∧
      (∀ (t : MiniTopo) (rn sn : String), rn ∉ t.routersNames →
        sn ∉ t.subnetsNames → resolveAttachment t rn sn = (0, 0)) := by
  constructor
  · intro names name h
    exact nameToUidGo_of_not_mem name names 0 h
  · intro t rn sn hr hs
    simp [resolveAttachment, nameToUid,
      nameToUidGo_of_not_mem rn t.routersNames 0 hr,
      nameToUidGo_of_not_mem sn t.subnetsNames 0 hs]

/-- Witness for claim C10 at concrete name lists. -/
theorem c10_witness :
    ("ghost" ∉ ["alpha", "beta"]) ∧ nameToUid ["alpha", "beta"] "ghost" = 0 :=
  ⟨by decide, c10_unknown_name_resolves_to_zero.1 ["alpha", "beta"] "ghost" (by decide)⟩

/-! ## Theorems: address auto-assignment (claim C6) -/

/-- The retry loop of the auto-assigner, scanning downward from b, returns the
largest usable host address below b when one exists. -/
theorem autoAssignGo_spec (s : SubnetB) :
    ∀ b, b ≤ s.netEnd →
      (∃ y, s.netStart < y ∧ y < b ∧ ipTaken s y = false) →
      ∃ hip, autoAssignGo s b = .ok hip ∧ s.netStart < hip ∧ hip < s.netEnd ∧
        ipTaken s hip = false ∧
        ∀ y, s.netStart < y → y < b → ipTaken s y = false → y ≤ hip := by
  intro b
  induction b with
  | zero =>
    rintro _ ⟨y, _, hy, _⟩
    exact absurd hy (Nat.not_lt_zero y)
  | succ b ih =>
    rintro hb ⟨y, hy1, hy2, hy3⟩
    have hbe : b < s.netEnd := Nat.lt_of_succ_le hb
    by_cases hrange : s.netStart < b ∧ b < s.netEnd
    · by_cases htaken : ipTaken s b = true
      · have hyb : y ≠ b := fun h => by rw [h] at hy3; rw [hy3] at htaken; cases htaken
        obtain ⟨hip, hgo, h1, h2, h3, h4⟩ := ih (le_of_lt hb)
          ⟨y, hy1, Nat.lt_of_le_of_ne (Nat.le_of_lt_succ hy2) hyb, hy3⟩
        refine ⟨hip, ?_, h1, h2, h3, ?_⟩
        · simp only [autoAssignGo, checkIpAvailability, if_neg (not_not.mpr hrange),
            if_pos htaken]
          exact hgo
        · intro z hz1 hz2 hz3
          have hzb : z ≠ b := fun h => by rw [h] at hz3; rw [hz3] at htaken; cases htaken
          exact h4 z hz1 (Nat.lt_of_le_of_ne (Nat.le_of_lt_succ hz2) hzb) hz3
      · have htf : ipTaken s b = false := Bool.eq_false_iff.mpr htaken
        refine ⟨b, ?_, hrange.1, hrange.2, htf, ?_⟩
        · simp only [autoAssignGo, checkIpAvailability, if_neg (not_not.mpr hrange)]
          simp [htf]
        · intro z _ hz2 _
          exact Nat.le_of_lt_succ hz2
    · exfalso
      have : ¬ s.netStart < b := fun h => hrange ⟨h, hbe⟩
      have hyb : y ≤ b := Nat.le_of_lt_succ hy2
      exact this (lt_of_lt_of_le hy1 hyb)

/-- Claim C6: an omitted IP is auto-assigned the highest host address of the
subnet's range not already held by another router, obtained by scanning
downward from the broadcast address; in the two-subnet /30 example the first
router attached to A = 10.0.0.0/30 receives 10.0.0.2 and the second receives
10.0.0.1. -/
theorem c6_auto_assign_highest_free :
    (∀ s : SubnetB,
        (∃ y, s.netStart < y ∧ y < s.netEnd ∧ ipTaken s y = false) →
        ∃ hip, autoAssign s = .ok hip ∧ s.netStart < hip ∧ hip < s.netEnd ∧
          ipTaken s hip = false ∧
          ∀ y, s.netStart < y → y < s.netEnd → ipTaken s y = false → y ≤ hip) ∧
      (connectAuto ⟨167772160, 167772163, []⟩ 0 =
          .ok (⟨167772160, 167772163, [(0, 167772162)]⟩, 167772162) ∧
        connectAuto ⟨167772160, 167772163, [(0, 167772162)]⟩ 1 =
          .ok (⟨167772160, 167772163, [(0, 167772162), (1, 167772161)]⟩, 167772161)) := by
  refine ⟨?_, rfl, rfl⟩
  intro s hex
  exact autoAssignGo_spec s s.netEnd (le_refl _) hex

/-- Witness for claim C6 at a concrete subnet with one address taken. -/
theorem c6_witness :
    (∃ y, (0 : Nat) < y ∧ y < 7 ∧ ipTaken ⟨0, 7, [(0, 6)]⟩ y = false) ∧
      ∃ hip, autoAssign ⟨0, 7, [(0, 6)]⟩ = .ok hip ∧ (0 : Nat) < hip ∧ hip < 7 ∧
        ipTaken ⟨0, 7, [(0, 6)]⟩ hip = false ∧
        ∀ y, (0 : Nat) < y → y < 7 → ipTaken ⟨0, 7, [(0, 6)]⟩ y = false → y ≤ hip :=
  ⟨⟨5, by decide⟩, c6_auto_assign_highest_free.1 ⟨0, 7, [(0, 6)]⟩ ⟨5, by decide⟩⟩

/-! ## Theorems: subnet overlap checking (claims C2 and C3) -/

/-- decValLE inverts the base-10 digit expansion when the fuel suffices. -/
theorem decDigitsGo_val : ∀ f n, n ≤ f → decValLE (decDigitsGo f n) = n := by
  intro f
  induction f with
  | zero =>
    intro n hn
    have : n = 0 := Nat.le_zero.mp hn
    subst this
    rfl
  | succ f ih =>
    intro n hn
    match n with
    | 0 => rfl
    | m + 1 =>
      have hdiv : (m + 1) / 10 ≤ f := by
        have h1 : (m + 1) / 10 < m + 1 := Nat.div_lt_self (Nat.succ_pos m) (by norm_num)
        omega
      simp only [decDigitsGo, decValLE]
      rw [ih _ hdiv]
      omega

/-- Every digit produced by the base-10 expansion is below 10. -/
theorem decDigitsGo_lt10 : ∀ f n d, d ∈ decDigitsGo f n → d < 10 := by
  intro f
  induction f with
  | zero =>
    intro n d h
    simp [decDigitsGo] at h
  | succ f ih =>
    intro n d h
    match n with
    | 0 => simp [decDigitsGo] at h
    | m + 1 =>
      simp only [decDigitsGo, List.mem_cons] at h
      rcases h with rfl | h
      · exact Nat.mod_lt _ (by norm_num)
      · exact ih _ _ h

/-- Every character of a rendered number is a digit (below 10). -/
theorem decStr_lt10 (n : Nat) : ∀ d ∈ decStr n, d < 10 := by
  intro d hd
  by_cases h : n = 0
  · simp [decStr, h] at hd
    omega
  · simp only [decStr, if_neg h, List.mem_reverse] at hd
    exact decDigitsGo_lt10 n n d hd

/-- Decimal rendering is injective. -/
theorem decStr_inj {a b : Nat} (h : decStr a = decStr b) : a = b := by
  by_cases ha : a = 0 <;> by_cases hb : b = 0
  · rw [ha, hb]
  · exfalso
    rw [decStr, if_pos ha, decStr, if_neg hb] at h
    have hgo : decDigitsGo b b = [0] := by
      have := congrArg List.reverse h
      simpa using this.symm
    have := decDigitsGo_val b b (le_refl b)
    rw [hgo] at this
    exact hb (by simpa [decValLE] using this.symm)
  · exfalso
    rw [decStr, if_neg ha, decStr, if_pos hb] at h
    have hgo : decDigitsGo a a = [0] := by
      have := congrArg List.reverse h
      simpa using this
    have := decDigitsGo_val a a (le_refl a)
    rw [hgo] at this
    exact ha (by simpa [decValLE] using this.symm)
  · rw [decStr, if_neg ha, decStr, if_neg hb] at h
    have hgo : decDigitsGo a a = decDigitsGo b b := by
      have := congrArg List.reverse h
      simpa using this
    have h1 := decDigitsGo_val a a (le_refl a)
    have h2 := decDigitsGo_val b b (le_refl b)
    rw [hgo] at h1
    rw [h2] at h1
    exact h1.symm

/-- Splitting a digit string at the first dot (value 10) is unambiguous when
both prefixes consist of digits. -/
theorem append_dot_inj :
    ∀ (l1 l2 r1 r2 : List Nat), (∀ d ∈ l1, d < 10) → (∀ d ∈ l2, d < 10) →
      l1 ++ 10 :: r1 = l2 ++ 10 :: r2 → l1 = l2 ∧ r1 = r2 := by
  intro l1
  induction l1 with
  | nil =>
    intro l2 r1 r2 _ h2 heq
    cases l2 with
    | nil => simpa using heq
    | cons y ys =>
      exfalso
      have hy : 10 = y := by simpa using congrArg (fun l => l.headD 0) heq
      have := h2 y (by simp)
      omega
  | cons x xs ih =>
    intro l2 r1 r2 h1 h2 heq
    cases l2 with
    | nil =>
      exfalso
      have hx : x = 10 := by simpa using congrArg (fun l => l.headD 0) heq
      have := h1 x (by simp)
      omega
    | cons y ys =>
      simp only [List.cons_append] at heq
      injection heq with hxy htl
      obtain ⟨he1, he2⟩ := ih ys r1 r2 (fun d hd => h1 d (by simp [hd]))
        (fun d hd => h2 d (by simp [hd])) htl
      exact ⟨by rw [hxy, he1], he2⟩

/-- Rendered addresses are equal iff the addresses are. -/
theorem addrChars_inj {x y : Addr} (h : addrChars x = addrChars y) : x = y := by
  unfold addrChars at h
  obtain ⟨h1, h⟩ := append_dot_inj _ _ _ _ (decStr_lt10 _) (decStr_lt10 _) h
  obtain ⟨h2, h⟩ := append_dot_inj _ _ _ _ (decStr_lt10 _) (decStr_lt10 _) h
  obtain ⟨h3, h4⟩ := append_dot_inj _ _ _ _ (decStr_lt10 _) (decStr_lt10 _) h
  cases x with
  | mk xa xb xc xd =>
    cases y with
    | mk ya yb yc yd =>
      simp only at h1 h2 h3 h4
      rw [decStr_inj h1, decStr_inj h2, decStr_inj h3, decStr_inj h4]

/-- With equal mask lengths, the code's overlap test is exactly start-address
equality (the rendered start strings compare equal iff the addresses do). -/
theorem overlapCheck_eq_mask (mask : Nat) (s1 s2 : Addr) :
    overlapCheck mask s1 mask s2 = true ↔ s1 = s2 := by
  unfold overlapCheck
  rw [if_pos rfl]
  constructor
  · intro h
    exact addrChars_inj (by simpa using h)
  · rintro rfl
    simp

/-- With equal mask lengths, the spec's overlap rule is also start-address
equality. -/
theorem overlapSpecRule_eq_mask (mask : Nat) (s1 s2 : Addr) :
    overlapSpecRule mask s1 mask s2 = true ↔ s1 = s2 := by
  unfold overlapSpecRule
  rw [if_pos rfl]
  simp

/-- create_network raises an overlap error exactly when some existing subnet
passes the code's overlap test against the new one. -/
theorem createNetwork_error_iff (nc : NC) (ip : Addr) (mask : Nat) :
    (∃ e, createNetwork nc ip mask = .error e) ↔
      ∃ p ∈ nc.subnets, overlapCheck mask ip p.2 p.1 = true := by
  unfold createNetwork
  cases hf : nc.subnets.find? fun p => overlapCheck mask ip p.2 p.1 with
  | none =>
    constructor
    · rintro ⟨e, he⟩
      simp at he
    · rintro ⟨p, hp, hov⟩
      have := List.find?_eq_none.mp hf p hp
      simp [hov] at this
  | some p =>
    constructor
    · intro _
      exact ⟨p, List.mem_of_find?_eq_some hf, by simpa using List.find?_some hf⟩
    · intro _
      exact ⟨p, rfl⟩

/-- Claim C2 fails on the code: with 10.0.0.0/16 created first, creating
9.0.0.0/8 raises an overlap error although 10.0.0.0 does not fall inside the
byte-aligned prefix of 9.0.0.0/8 (the two ranges are in fact disjoint), so
the claimed equivalence with the spec's rule is false at this input. -/
theorem c2_counterexample :
    createNetwork ⟨[]⟩ ⟨10, 0, 0, 0⟩ 16 = .ok ⟨[(⟨10, 0, 0, 0⟩, 16)]⟩ ∧
      createNetwork ⟨[(⟨10, 0, 0, 0⟩, 16)]⟩ ⟨9, 0, 0, 0⟩ 8 =
        .error (⟨10, 0, 0, 0⟩, 16) ∧
      overlapSpecRule 8 ⟨9, 0, 0, 0⟩ 16 ⟨10, 0, 0, 0⟩ = false :=
  ⟨rfl, rfl, rfl⟩

/-- Claim C2 amended: creating the second subnet raises an overlap error iff
some existing subnet passes the code's check; with equal mask lengths that
check agrees with the spec's rule (overlap iff identical start address), but
with unequal mask lengths the code instead applies a byte-bucketed comparison
keyed to the new subnet's mask length, ordering the bucket byte with a
less-or-equal test over decimal-string prefixes, which does not coincide with
the spec's byte-aligned-prefix rule. -/
theorem c2_overlap_amended :
    (∀ (nc : NC) (ip : Addr) (mask : Nat),
        (∃ e, createNetwork nc ip mask = .error e) ↔
          ∃ p ∈ nc.subnets, overlapCheck mask ip p.2 p.1 = true) ∧
      (∀ (mask : Nat) (s1 s2 : Addr),
        (overlapCheck mask s1 mask s2 = true ↔ s1 = s2) ∧
          (overlapSpecRule mask s1 mask s2 = true ↔ s1 = s2)) :=
  ⟨createNetwork_error_iff, fun mask s1 s2 =>
    ⟨overlapCheck_eq_mask mask s1 s2, overlapSpecRule_eq_mask mask s1 s2⟩⟩

/-- Witness for the amended claim C2 at concrete subnets. -/
theorem c2_witness :
    ((∃ e, createNetwork ⟨[(⟨10, 0, 0, 0⟩, 24)]⟩ ⟨10, 0, 0, 0⟩ 24 = .error e) ↔
        ∃ p ∈ ([(⟨10, 0, 0, 0⟩, 24)] : List (Addr × Nat)),
          overlapCheck 24 ⟨10, 0, 0, 0⟩ p.2 p.1 = true) ∧
      (overlapCheck 24 ⟨10, 0, 0, 0⟩ 24 ⟨10, 0, 0, 0⟩ = true ↔
        (⟨10, 0, 0, 0⟩ : Addr) = ⟨10, 0, 0, 0⟩) :=
  ⟨c2_overlap_amended.1 ⟨[(⟨10, 0, 0, 0⟩, 24)]⟩ ⟨10, 0, 0, 0⟩ 24,
    (c2_overlap_amended.2 24 ⟨10, 0, 0, 0⟩ ⟨10, 0, 0, 0⟩).1⟩

/-- Claim C3 fails on the code: the overlap verdict depends on insertion
order; 10.0.0.0/16 then 9.0.0.0/8 raises an overlap error, while 9.0.0.0/8
then 10.0.0.0/16 succeeds. -/
theorem c3_counterexample :
    createNetwork ⟨[(⟨10, 0, 0, 0⟩, 16)]⟩ ⟨9, 0, 0, 0⟩ 8 =
        .error (⟨10, 0, 0, 0⟩, 16) ∧
      createNetwork ⟨[(⟨9, 0, 0, 0⟩, 8)]⟩ ⟨10, 0, 0, 0⟩ 16 =
        .ok ⟨[(⟨9, 0, 0, 0⟩, 8), (⟨10, 0, 0, 0⟩, 16)]⟩ :=
  ⟨rfl, rfl⟩

/-- Claim C3 amended: the overlap verdict is symmetric when the two subnets
have equal mask lengths (in either insertion order the second creation
succeeds iff the start addresses differ); with unequal mask lengths the
insertion order can change the verdict. -/
theorem c3_equal_mask_symmetric (mask : Nat) (s1 s2 : Addr) :
    exceptOk (createNetwork ⟨[(s1, mask)]⟩ s2 mask) =
      exceptOk (createNetwork ⟨[(s2, mask)]⟩ s1 mask) := by
  by_cases hss : s1 = s2
  · rw [hss]
  · have h1 : overlapCheck mask s2 mask s1 = false := by
      rw [Bool.eq_false_iff]
      intro h
      exact hss ((overlapCheck_eq_mask mask s2 s1).mp h).symm
    have h2 : overlapCheck mask s1 mask s2 = false := by
      rw [Bool.eq_false_iff]
      intro h
      exact hss ((overlapCheck_eq_mask mask s1 s2).mp h)
    simp [createNetwork, List.find?, h1, h2, exceptOk]

/-- Witness for the amended claim C3 at concrete subnets. -/
theorem c3_witness :
    exceptOk (createNetwork ⟨[((⟨10, 0, 0, 0⟩ : Addr), 24)]⟩ ⟨10, 0, 1, 0⟩ 24) =
      exceptOk (createNetwork ⟨[((⟨10, 0, 1, 0⟩ : Addr), 24)]⟩ ⟨10, 0, 0, 0⟩ 24) :=
  c3_equal_mask_symmetric 24 ⟨10, 0, 0, 0⟩ ⟨10, 0, 1, 0⟩

/-! ## Theorems: the ants discovery process (claims C4 and C8) -/

/-- Filtering with a pointwise stronger predicate keeps at most as many
elements. -/
theorem filter_length_le_of_imp (l : List Nat) (p q : Nat → Bool)
    (h : ∀ x ∈ l, q x = true → p x = true) :
    (l.filter q).length ≤ (l.filter p).length := by
  induction l with
  | nil => simp
  | cons x xs ih =>
    have ihx := ih fun y hy => h y (by simp [hy])
    cases hq : q x with
    | true =>
      rw [List.filter_cons_of_pos hq, List.filter_cons_of_pos (h x (by simp) hq)]
      simpa using ihx
    | false =>
      rw [List.filter_cons_of_neg (by simp [hq])]
      cases hp : p x with
      | true =>
        rw [List.filter_cons_of_pos hp]
        exact le_trans ihx (by simp)
      | false =>
        rw [List.filter_cons_of_neg (by simp [hp])]
        exact ihx

/-- Filtering with a pointwise stronger predicate that loses a definite
member keeps strictly fewer elements. -/
theorem filter_length_lt_of_imp (l : List Nat) (p q : Nat → Bool)
    (h : ∀ x ∈ l, q x = true → p x = true) (c : Nat) (hc : c ∈ l)
    (hp : p c = true) (hq : q c = false) :
    (l.filter q).length < (l.filter p).length := by
  induction l with
  | nil => simp at hc
  | cons x xs ih =>
    rcases List.mem_cons.mp hc with rfl | hcx
    · rw [List.filter_cons_of_pos hp, List.filter_cons_of_neg (by simp [hq])]
      exact Nat.lt_succ_of_le
        (filter_length_le_of_imp xs p q fun y hy => h y (by simp [hy]))
    · have ihx := ih (fun y hy => h y (by simp [hy])) hcx
      cases hqx : q x with
      | true =>
        rw [List.filter_cons_of_pos hqx, List.filter_cons_of_pos (h x (by simp) hqx)]
        simpa using ihx
      | false =>
        rw [List.filter_cons_of_neg (by simp [hqx])]
        cases hpx : p x with
        | true =>
          rw [List.filter_cons_of_pos hpx]
          exact Nat.lt_succ_of_lt ihx
        | false =>
          rw [List.filter_cons_of_neg (by simp [hpx])]
          exact ihx

/-- Visiting more never increases the number of unvisited candidates. -/
theorem countNotIn_mono (U : List Nat) {v1 v2 : List Nat}
    (h : ∀ x ∈ v1, x ∈ v2) : countNotIn U v2 ≤ countNotIn U v1 := by
  apply filter_length_le_of_imp
  intro x _ hq
  simp only [decide_eq_true_eq] at hq ⊢
  exact fun hx => hq (h x hx)

/-- Visiting a fresh candidate strictly decreases the unvisited count. -/
theorem countNotIn_snoc_lt (U v : List Nat) (c : Nat) (hcU : c ∈ U)
    (hcv : c ∉ v) : countNotIn U (v ++ [c]) < countNotIn U v := by
  apply filter_length_lt_of_imp _ _ _ _ c (List.mem_dedup.mpr hcU)
    (by simp [hcv]) (by simp)
  intro x _ hq
  simp only [decide_eq_true_eq, List.mem_append] at hq ⊢
  exact fun hx => hq (Or.inl hx)

/-- ndCount over a cons. -/
theorem ndCount_cons (a : Ant) (l : List Ant) :
    ndCount (a :: l) = nd1 a + ndCount l := by
  unfold ndCount nd1
  rw [List.filter_cons]
  by_cases h : a.state = .dead
  · simp [h]
  · simp [h]
    omega

/-- ndCount over an append. -/
theorem ndCount_append (l1 l2 : List Ant) :
    ndCount (l1 ++ l2) = ndCount l1 + ndCount l2 := by
  simp [ndCount, List.filter_append]

/-- ndCount is bounded by the list length. -/
theorem ndCount_le_length (l : List Ant) : ndCount l ≤ l.length :=
  List.length_filter_le _ _

/-- A single ant contributes at most one to ndCount. -/
theorem nd1_le_one (a : Ant) : nd1 a ≤ 1 := by
  unfold nd1
  split <;> omega

/-- Activated ants are never waiting. -/
theorem activate_state (a : Ant) : (activate a).state ≠ .waiting := by
  unfold activate
  split
  · simp
  · next h => exact h

/-- Every member of a per-node adjacency list is a member of the flattened
adjacency. -/
theorem mem_getD_flatten {L : List (List Nat)} {i x : Nat}
    (h : x ∈ L.getD i []) : x ∈ L.flatten := by
  rw [List.getD_eq_getElem?_getD] at h
  cases hg : L[i]? with
  | none =>
    rw [hg] at h
    simp at h
  | some l =>
    rw [hg] at h
    exact List.mem_flatten_of_mem (List.getElem?_mem hg) h

/-- Appending a fresh element preserves Nodup. -/
theorem nodup_snoc {v : List Nat} {c : Nat} (hnd : v.Nodup) (hc : c ∉ v) :
    (v ++ [c]).Nodup := by
  rw [List.nodup_append]
  refine ⟨hnd, List.nodup_singleton c, ?_⟩
  intro a ha hb
  rw [List.mem_singleton] at hb
  subst hb
  exact hc ha

/-- The two filters of a predicate split a list's length. -/
theorem length_filter_add_length_filter_not (l : List Nat) (p : Nat → Bool) :
    (l.filter p).length + (l.filter fun x => ! p x).length = l.length := by
  induction l with
  | nil => simp
  | cons x xs ih =>
    cases hp : p x with
    | true =>
      rw [List.filter_cons_of_pos hp, List.filter_cons_of_neg (by simp [hp])]
      simpa using by omega
    | false =>
      rw [List.filter_cons_of_neg (by simp [hp]), List.filter_cons_of_pos (by simp [hp])]
      simp only [List.length_cons]
      omega

/-- Growth of the visited-subnets list through phase-1 spawning: old entries
are kept, new entries come from the candidate list, and the per-child
freshness guard preserves Nodup. -/
theorem spawnSubnets_visA (disc : Option Nat) (parent : Ant) :
    ∀ (cands visS : List Nat) (found : List (List Nat)),
      (∀ x ∈ visS, x ∈ (spawnSubnets disc parent cands visS found).2.1) ∧
      (∀ x ∈ (spawnSubnets disc parent cands visS found).2.1,
        x ∈ visS ∨ x ∈ cands) ∧
      (visS.Nodup → (spawnSubnets disc parent cands visS found).2.1.Nodup) := by
  intro cands
  induction cands with
  | nil =>
    intro visS found
    exact ⟨fun x hx => by simpa [spawnSubnets] using hx,
      fun x hx => Or.inl (by simpa [spawnSubnets] using hx),
      fun h => by simpa [spawnSubnets] using h⟩
  | cons c rest ih =>
    intro visS found
    by_cases hc : c ∈ visS
    · obtain ⟨h1, h2, h3⟩ := ih visS found
      have heq : spawnSubnets disc parent (c :: rest) visS found =
          spawnSubnets disc parent rest visS found := by
        simp [spawnSubnets, hc]
      rw [heq]
      exact ⟨h1, fun x hx => (h2 x hx).imp id (List.mem_cons_of_mem c), h3⟩
    · have glue' : ∀ f',
          (∀ x ∈ visS, x ∈ (spawnSubnets disc parent rest (visS ++ [c]) f').2.1) ∧
          (∀ x ∈ (spawnSubnets disc parent rest (visS ++ [c]) f').2.1,
            x ∈ visS ∨ x ∈ c :: rest) ∧
          (visS.Nodup → (spawnSubnets disc parent rest (visS ++ [c]) f').2.1.Nodup) := by
        intro f'
        obtain ⟨h1, h2, h3⟩ := ih (visS ++ [c]) f'
        refine ⟨fun x hx => h1 x (by simp [hx]), ?_, fun hnd => h3 (nodup_snoc hnd hc)⟩
        intro x hx
        rcases h2 x hx with hx' | hx'
        · rcases List.mem_append.mp hx' with hm | hm
          · exact Or.inl hm
          · exact Or.inr (by simp [List.mem_singleton.mp hm])
        · exact Or.inr (List.mem_cons_of_mem c hx')
      rcases disc with _ | obj
      · simp only [spawnSubnets, if_neg hc]
        exact glue' found
      · by_cases hco : c = obj
        · simp only [spawnSubnets, if_neg hc, if_pos hco]
          exact glue' _
        · simp only [spawnSubnets, if_neg hc, if_neg hco]
          exact glue' found

/-- Each spawned phase-1 child accounts for one fresh visited subnet. -/
theorem spawnSubnets_count (disc : Option Nat) (parent : Ant) (U : List Nat) :
    ∀ (cands visS : List Nat) (found : List (List Nat)),
      (∀ c ∈ cands, c ∈ U) →
      countNotIn U (spawnSubnets disc parent cands visS found).2.1 +
          (spawnSubnets disc parent cands visS found).1.length ≤
        countNotIn U visS := by
  intro cands
  induction cands with
  | nil =>
    intro visS found _
    simp [spawnSubnets]
  | cons c rest ih =>
    intro visS found hU
    by_cases hc : c ∈ visS
    · have heq : spawnSubnets disc parent (c :: rest) visS found =
          spawnSubnets disc parent rest visS found := by
        simp [spawnSubnets, hc]
      rw [heq]
      exact ih visS found fun y hy => hU y (by simp [hy])
    · have hlt : countNotIn U (visS ++ [c]) < countNotIn U visS :=
        countNotIn_snoc_lt U visS c (hU c (by simp)) hc
      have hrec := fun f' => ih (visS ++ [c]) f' fun y hy => hU y (by simp [hy])
      rcases disc with _ | obj
      · simp only [spawnSubnets, if_neg hc, List.length_cons]
        have h1 := hrec found
        omega
      · by_cases hco : c = obj
        · simp only [spawnSubnets, if_neg hc, if_pos hco, List.length_cons]
          have h1 := hrec (found ++
            [parent.histR.dropLast ++ [parent.router]])
          omega
        · simp only [spawnSubnets, if_neg hc, if_neg hco, List.length_cons]
          have h1 := hrec found
          omega

/-- Growth of the visited-routers list through phase-2 spawning. -/
theorem spawnRouters_visA (parent : Ant) :
    ∀ (cands visR : List Nat),
      (∀ x ∈ visR, x ∈ (spawnRouters parent cands visR).2) ∧
      (∀ x ∈ (spawnRouters parent cands visR).2, x ∈ visR ∨ x ∈ cands) ∧
      (visR.Nodup → (spawnRouters parent cands visR).2.Nodup) := by
  intro cands
  induction cands with
  | nil =>
    intro visR
    exact ⟨fun x hx => by simpa [spawnRouters] using hx,
      fun x hx => Or.inl (by simpa [spawnRouters] using hx),
      fun h => by simpa [spawnRouters] using h⟩
  | cons c rest ih =>
    intro visR
    by_cases hc : c ∈ visR
    · obtain ⟨h1, h2, h3⟩ := ih visR
      have heq : spawnRouters parent (c :: rest) visR =
          spawnRouters parent rest visR := by
        simp [spawnRouters, hc]
      rw [heq]
      exact ⟨h1, fun x hx => (h2 x hx).imp id (List.mem_cons_of_mem c), h3⟩
    · obtain ⟨h1, h2, h3⟩ := ih (visR ++ [c])
      simp only [spawnRouters, if_neg hc]
      refine ⟨fun x hx => h1 x (by simp [hx]), ?_, fun hnd => h3 (nodup_snoc hnd hc)⟩
      intro x hx
      rcases h2 x hx with hx' | hx'
      · rcases List.mem_append.mp hx' with hm | hm
        · exact Or.inl hm
        · exact Or.inr (by simp [List.mem_singleton.mp hm])
      · exact Or.inr (List.mem_cons_of_mem c hx')

/-- Each spawned phase-2 child accounts for one fresh visited router. -/
theorem spawnRouters_count (parent : Ant) (U : List Nat) :
    ∀ (cands visR : List Nat),
      (∀ c ∈ cands, c ∈ U) →
      countNotIn U (spawnRouters parent cands visR).2 +
          (spawnRouters parent cands visR).1.length ≤
        countNotIn U visR := by
  intro cands
  induction cands with
  | nil =>
    intro visR _
    simp [spawnRouters]
  | cons c rest ih =>
    intro visR hU
    by_cases hc : c ∈ visR
    · have heq : spawnRouters parent (c :: rest) visR =
          spawnRouters parent rest visR := by
        simp [spawnRouters, hc]
      rw [heq]
      exact ih visR fun y hy => hU y (by simp [hy])
    · have hlt : countNotIn U (visR ++ [c]) < countNotIn U visR :=
        countNotIn_snoc_lt U visR c (hU c (by simp)) hc
      have h1 := ih (visR ++ [c]) fun y hy => hU y (by simp [hy])
      simp only [spawnRouters, if_neg hc, List.length_cons]
      omega

/-- Inversion of one subnet-hop step for a non-waiting ant: either nothing is
visited and the ant ends non-living with no children, or the ant moves onto
one fresh candidate, or it dies spawning the children of spawnSubnets. -/
theorem subnetHopOne_inv (disc : Option Nat) (rl : List (List Nat)) (a : Ant)
    (visS : List Nat) (found : List (List Nat)) (a' : Ant) (ks : List Ant)
    (v' : List Nat) (f' : List (List Nat)) (ha : a.state ≠ .waiting)
    (h : subnetHopOne disc rl a visS found = some (a', ks, v', f')) :
    (v' = visS ∧ ks = [] ∧ nd1 a' = 0) ∨
    (∃ c, c ∈ rl.getD a.router [] ∧ c ∉ visS ∧ v' = visS ++ [c] ∧ ks = []) ∨
    (∃ cands, (∀ x ∈ cands, x ∈ rl.getD a.router [] ∧ x ∉ visS) ∧ nd1 a' = 0 ∧
      ks = (spawnSubnets disc a cands visS found).1 ∧
      v' = (spawnSubnets disc a cands visS found).2.1) := by
  have hfilter : ∀ (l : List Nat),
      (rl.getD a.router []).filter (fun s => decide (s ∉ visS)) = l →
      ∀ x ∈ l, x ∈ rl.getD a.router [] ∧ x ∉ visS := by
    intro l hl x hx
    rw [← hl] at hx
    obtain ⟨hm, hp⟩ := List.mem_filter.mp hx
    exact ⟨hm, by simpa using hp⟩
  unfold subnetHopOne at h
  split at h
  · -- skipped ant (not alive)
    rename_i hns
    simp only [Option.some.injEq, Prod.mk.injEq] at h
    obtain ⟨ha', hks, hv, _⟩ := h
    have hdead : a.state = .dead := by
      cases hst : a.state with
      | alive => exact absurd hst hns
      | dead => rfl
      | waiting => exact absurd hst ha
    exact Or.inl ⟨hv.symm, hks.symm, by simp [← ha', nd1, hdead]⟩
  · split at h
    · -- no candidate: the ant dies
      simp only [Option.some.injEq, Prod.mk.injEq] at h
      obtain ⟨ha', hks, hv, _⟩ := h
      exact Or.inl ⟨hv.symm, hks.symm, by simp [← ha', nd1, kill]⟩
    · -- one candidate
      rename_i c heq
      have hc := hfilter [c] heq c (by simp)
      split at h
      · -- defensive exception: impossible result
        exact absurd h (by simp)
      · rename_i ht hht
        rcases disc with _ | obj
        · -- sweep variant
          simp only [] at h
          by_cases hseen : c ∈ (if ht then a.histR else a.histS)
          · rw [if_pos hseen] at h
            simp only [Option.some.injEq, Prod.mk.injEq] at h
            obtain ⟨ha', hks, hv, _⟩ := h
            exact Or.inl ⟨hv.symm, hks.symm, by simp [← ha', nd1, kill]⟩
          · rw [if_neg hseen] at h
            simp only [Option.some.injEq, Prod.mk.injEq] at h
            obtain ⟨_, hks, hv, _⟩ := h
            exact Or.inr (Or.inl ⟨c, hc.1, hc.2, hv.symm, hks.symm⟩)
        · -- find variant
          simp only [] at h
          by_cases hseen : c ∈ (if ht then a.histR else a.histS)
          · rw [if_pos hseen] at h
            simp only [Option.some.injEq, Prod.mk.injEq] at h
            obtain ⟨ha', hks, hv, _⟩ := h
            exact Or.inl ⟨hv.symm, hks.symm, by simp [← ha', nd1, kill]⟩
          · rw [if_neg hseen] at h
            by_cases hobj : ht = false ∧ c = obj
            · rw [if_pos hobj] at h
              simp only [Option.some.injEq, Prod.mk.injEq] at h
              obtain ⟨ha', hks, hv, _⟩ := h
              exact Or.inl ⟨hv.symm, hks.symm, by simp [← ha', nd1, kill]⟩
            · rw [if_neg hobj] at h
              simp only [Option.some.injEq, Prod.mk.injEq] at h
              obtain ⟨_, hks, hv, _⟩ := h
              exact Or.inr (Or.inl ⟨c, hc.1, hc.2, hv.symm, hks.symm⟩)
    · -- several candidates: the ant dies and spawns
      simp only [Option.some.injEq, Prod.mk.injEq] at h
      obtain ⟨ha', hks, hvf⟩ := h
      refine Or.inr (Or.inr ⟨(rl.getD a.router []).filter fun s => decide (s ∉ visS),
        hfilter _ rfl, by simp [← ha', nd1, kill], hks.symm, ?_⟩)
      exact (congrArg Prod.fst hvf).symm

/-- Inversion of one router-hop step for a non-waiting ant. -/
theorem routerHopOne_inv (sl : List (List Nat)) (a : Ant)
    (visR : List Nat) (a' : Ant) (ks : List Ant) (v' : List Nat)
    (ha : a.state ≠ .waiting)
    (h : routerHopOne sl a visR = some (a', ks, v')) :
    (v' = visR ∧ ks = [] ∧ nd1 a' = 0) ∨
    (∃ c, c ∈ sl.getD a.subnet [] ∧ c ∉ visR ∧ v' = visR ++ [c] ∧ ks = []) ∨
    (∃ cands, (∀ x ∈ cands, x ∈ sl.getD a.subnet [] ∧ x ∉ visR) ∧ nd1 a' = 0 ∧
      ks = (spawnRouters a cands visR).1 ∧
      v' = (spawnRouters a cands visR).2) := by
  have hfilter : ∀ (l : List Nat),
      (sl.getD a.subnet []).filter (fun r => decide (r ∉ visR)) = l →
      ∀ x ∈ l, x ∈ sl.getD a.subnet [] ∧ x ∉ visR := by
    intro l hl x hx
    rw [← hl] at hx
    obtain ⟨hm, hp⟩ := List.mem_filter.mp hx
    exact ⟨hm, by simpa using hp⟩
  unfold routerHopOne at h
  split at h
  · rename_i hns
    simp only [Option.some.injEq, Prod.mk.injEq] at h
    obtain ⟨ha', hks, hv⟩ := h
    have hdead : a.state = .dead := by
      cases hst : a.state with
      | alive => exact absurd hst hns
      | dead => rfl
      | waiting => exact absurd hst ha
    exact Or.inl ⟨hv.symm, hks.symm, by simp [← ha', nd1, hdead]⟩
  · split at h
    · simp only [Option.some.injEq, Prod.mk.injEq] at h
      obtain ⟨ha', hks, hv⟩ := h
      exact Or.inl ⟨hv.symm, hks.symm, by simp [← ha', nd1, kill]⟩
    · rename_i c heq
      have hc := hfilter [c] heq c (by simp)
      split at h
      · exact absurd h (by simp)
      · rename_i ht hht
        by_cases hseen : c ∈ (if ht then a.histR else a.histS)
        · rw [if_pos hseen] at h
          simp only [Option.some.injEq, Prod.mk.injEq] at h
          obtain ⟨ha', hks, hv⟩ := h
          exact Or.inl ⟨hv.symm, hks.symm, by simp [← ha', nd1, kill]⟩
        · rw [if_neg hseen] at h
          simp only [Option.some.injEq, Prod.mk.injEq] at h
          obtain ⟨_, hks, hv⟩ := h
          exact Or.inr (Or.inl ⟨c, hc.1, hc.2, hv.symm, hks.symm⟩)
    · simp only [Option.some.injEq, Prod.mk.injEq] at h
      obtain ⟨ha', hks, hv⟩ := h
      exact Or.inr (Or.inr ⟨(sl.getD a.subnet []).filter fun r => decide (r ∉ visR),
        hfilter _ rfl, by simp [← ha', nd1, kill], hks.symm, hv.symm⟩)

/-- Visited-subnets growth of one subnet-hop step. -/
theorem subnetHopOne_visA (disc : Option Nat) (rl : List (List Nat)) (a : Ant)
    (visS : List Nat) (found : List (List Nat)) (a' : Ant) (ks : List Ant)
    (v' : List Nat) (f' : List (List Nat)) (ha : a.state ≠ .waiting)
    (h : subnetHopOne disc rl a visS found = some (a', ks, v', f')) :
    (∀ x ∈ visS, x ∈ v') ∧ (∀ x ∈ v', x ∈ visS ∨ x ∈ rl.flatten) ∧
    (visS.Nodup → v'.Nodup) := by
  rcases subnetHopOne_inv disc rl a visS found a' ks v' f' ha h with
    ⟨hv, _, _⟩ | ⟨c, hcrl, hcns, hv, _⟩ | ⟨cands, hsub, _, _, hv⟩
  · subst hv
    exact ⟨fun x hx => hx, fun x hx => Or.inl hx, id⟩
  · subst hv
    refine ⟨fun x hx => by simp [hx], ?_, fun hnd => nodup_snoc hnd hcns⟩
    intro x hx
    rcases List.mem_append.mp hx with hm | hm
    · exact Or.inl hm
    · have hxc : x = c := List.mem_singleton.mp hm
      exact Or.inr (mem_getD_flatten (hxc ▸ hcrl))
  · subst hv
    obtain ⟨h1, h2, h3⟩ := spawnSubnets_visA disc a cands visS found
    exact ⟨h1, fun x hx => (h2 x hx).imp id
      (fun hxc => mem_getD_flatten (hsub x hxc).1), h3⟩

/-- Accounting of one subnet-hop step: the unvisited-subnet count absorbs the
survival of the ant and the number of its children. -/
theorem subnetHopOne_count (disc : Option Nat) (rl : List (List Nat)) (a : Ant)
    (visS : List Nat) (found : List (List Nat)) (a' : Ant) (ks : List Ant)
    (v' : List Nat) (f' : List (List Nat)) (ha : a.state ≠ .waiting)
    (h : subnetHopOne disc rl a visS found = some (a', ks, v', f')) :
    countNotIn rl.flatten v' + nd1 a' + ks.length ≤ countNotIn rl.flatten visS := by
  rcases subnetHopOne_inv disc rl a visS found a' ks v' f' ha h with
    ⟨hv, hks, hnd⟩ | ⟨c, hcrl, hcns, hv, hks⟩ | ⟨cands, hsub, hnd, hks, hv⟩
  · subst hv; subst hks
    simp [hnd]
  · subst hv; subst hks
    have hlt := countNotIn_snoc_lt rl.flatten visS c (mem_getD_flatten hcrl) hcns
    have hle := nd1_le_one a'
    simp only [List.length_nil]
    omega
  · subst hv; subst hks
    have hsp := spawnSubnets_count disc a rl.flatten cands visS found
      fun c hc => mem_getD_flatten (hsub c hc).1
    rw [hnd]
    omega

/-- Visited-routers growth of one router-hop step. -/
theorem routerHopOne_visA (sl : List (List Nat)) (a : Ant) (visR : List Nat)
    (a' : Ant) (ks : List Ant) (v' : List Nat) (ha : a.state ≠ .waiting)
    (h : routerHopOne sl a visR = some (a', ks, v')) :
    (∀ x ∈ visR, x ∈ v') ∧ (∀ x ∈ v', x ∈ visR ∨ x ∈ sl.flatten) ∧
    (visR.Nodup → v'.Nodup) := by
  rcases routerHopOne_inv sl a visR a' ks v' ha h with
    ⟨hv, _, _⟩ | ⟨c, hcrl, hcns, hv, _⟩ | ⟨cands, hsub, _, _, hv⟩
  · subst hv
    exact ⟨fun x hx => hx, fun x hx => Or.inl hx, id⟩
  · subst hv
    refine ⟨fun x hx => by simp [hx], ?_, fun hnd => nodup_snoc hnd hcns⟩
    intro x hx
    rcases List.mem_append.mp hx with hm | hm
    · exact Or.inl hm
    · have hxc : x = c := List.mem_singleton.mp hm
      exact Or.inr (mem_getD_flatten (hxc ▸ hcrl))
  · subst hv
    obtain ⟨h1, h2, h3⟩ := spawnRouters_visA a cands visR
    exact ⟨h1, fun x hx => (h2 x hx).imp id
      (fun hxc => mem_getD_flatten (hsub x hxc).1), h3⟩

/-- Accounting of one router-hop step. -/
theorem routerHopOne_count (sl : List (List Nat)) (a : Ant) (visR : List Nat)
    (a' : Ant) (ks : List Ant) (v' : List Nat) (ha : a.state ≠ .waiting)
    (h : routerHopOne sl a visR = some (a', ks, v')) :
    countNotIn sl.flatten v' + nd1 a' + ks.length ≤ countNotIn sl.flatten visR := by
  rcases routerHopOne_inv sl a visR a' ks v' ha h with
    ⟨hv, hks, hnd⟩ | ⟨c, hcrl, hcns, hv, hks⟩ | ⟨cands, hsub, hnd, hks, hv⟩
  · subst hv; subst hks
    simp [hnd]
  · subst hv; subst hks
    have hlt := countNotIn_snoc_lt sl.flatten visR c (mem_getD_flatten hcrl) hcns
    have hle := nd1_le_one a'
    simp only [List.length_nil]
    omega
  · subst hv; subst hks
    have hsp := spawnRouters_count a sl.flatten cands visR
      fun c hc => mem_getD_flatten (hsub c hc).1
    rw [hnd]
    omega

/-- Visited-subnets growth over the whole subnet-hop phase. -/
theorem phase1_visA (disc : Option Nat) (rl : List (List Nat)) :
    ∀ (ants : List Ant) (visS : List Nat) (found : List (List Nat))
      (m k : List Ant) (v : List Nat) (f : List (List Nat)),
      (∀ x ∈ ants, x.state ≠ .waiting) →
      phase1 disc rl ants visS found = some (m, k, v, f) →
      (∀ x ∈ visS, x ∈ v) ∧ (∀ x ∈ v, x ∈ visS ∨ x ∈ rl.flatten) ∧
      (visS.Nodup → v.Nodup) := by
  intro ants
  induction ants with
  | nil =>
    intro visS found m k v f _ h
    simp only [phase1, Option.some.injEq, Prod.mk.injEq] at h
    obtain ⟨_, _, hv, _⟩ := h
    subst hv
    exact ⟨fun x hx => hx, fun x hx => Or.inl hx, id⟩
  | cons a rest ih =>
    intro visS found m k v f hw h
    simp only [phase1] at h
    cases h1 : subnetHopOne disc rl a visS found with
    | none =>
      rw [h1] at h
      simp at h
    | some q =>
      obtain ⟨a', ks, v1, f1⟩ := q
      rw [h1] at h
      simp only [Option.bind_eq_bind, Option.some_bind] at h
      cases h2 : phase1 disc rl rest v1 f1 with
      | none =>
        rw [h2] at h
        simp at h
      | some q2 =>
        obtain ⟨m2, k2, v2, f2⟩ := q2
        rw [h2] at h
        simp only [Option.bind_eq_bind, Option.some_bind, Option.some.injEq, Prod.mk.injEq] at h
        obtain ⟨_, _, hv, _⟩ := h
        subst hv
        obtain ⟨hs1, ho1, hn1⟩ := subnetHopOne_visA disc rl a visS found a' ks v1 f1
          (hw a (by simp)) h1
        obtain ⟨hs2, ho2, hn2⟩ := ih v1 f1 m2 k2 v2 f2
          (fun x hx => hw x (by simp [hx])) h2
        refine ⟨fun x hx => hs2 x (hs1 x hx), ?_, fun hnd => hn2 (hn1 hnd)⟩
        intro x hx
        rcases ho2 x hx with hx' | hx'
        · exact ho1 x hx'
        · exact Or.inr hx'

/-- Visited-routers growth over the whole router-hop phase. -/
theorem phase2_visA (sl : List (List Nat)) :
    ∀ (ants : List Ant) (visR : List Nat) (m k : List Ant) (v : List Nat),
      (∀ x ∈ ants, x.state ≠ .waiting) →
      phase2 sl ants visR = some (m, k, v) →
      (∀ x ∈ visR, x ∈ v) ∧ (∀ x ∈ v, x ∈ visR ∨ x ∈ sl.flatten) ∧
      (visR.Nodup → v.Nodup) := by
  intro ants
  induction ants with
  | nil =>
    intro visR m k v _ h
    simp only [phase2, Option.some.injEq, Prod.mk.injEq] at h
    obtain ⟨_, _, hv⟩ := h
    subst hv
    exact ⟨fun x hx => hx, fun x hx => Or.inl hx, id⟩
  | cons a rest ih =>
    intro visR m k v hw h
    simp only [phase2] at h
    cases h1 : routerHopOne sl a visR with
    | none =>
      rw [h1] at h
      simp at h
    | some q =>
      obtain ⟨a', ks, v1⟩ := q
      rw [h1] at h
      simp only [Option.bind_eq_bind, Option.some_bind] at h
      cases h2 : phase2 sl rest v1 with
      | none =>
        rw [h2] at h
        simp at h
      | some q2 =>
        obtain ⟨m2, k2, v2⟩ := q2
        rw [h2] at h
        simp only [Option.bind_eq_bind, Option.some_bind, Option.some.injEq, Prod.mk.injEq] at h
        obtain ⟨_, _, hv⟩ := h
        subst hv
        obtain ⟨hs1, ho1, hn1⟩ := routerHopOne_visA sl a visR a' ks v1
          (hw a (by simp)) h1
        obtain ⟨hs2, ho2, hn2⟩ := ih v1 m2 k2 v2
          (fun x hx => hw x (by simp [hx])) h2
        refine ⟨fun x hx => hs2 x (hs1 x hx), ?_, fun hnd => hn2 (hn1 hnd)⟩
        intro x hx
        rcases ho2 x hx with hx' | hx'
        · exact ho1 x hx'
        · exact Or.inr hx'

/-- Accounting of the router-hop phase: the surviving and spawned ants are
bounded by the routers newly visited in the phase. -/
theorem phase2_count (sl : List (List Nat)) :
    ∀ (ants : List Ant) (visR : List Nat) (m k : List Ant) (v : List Nat),
      (∀ x ∈ ants, x.state ≠ .waiting) →
      phase2 sl ants visR = some (m, k, v) →
      countNotIn sl.flatten v + ndCount m + k.length ≤ countNotIn sl.flatten visR := by
  intro ants
  induction ants with
  | nil =>
    intro visR m k v _ h
    simp only [phase2, Option.some.injEq, Prod.mk.injEq] at h
    obtain ⟨hm, hk, hv⟩ := h
    subst hv
    simp [← hm, ← hk, ndCount]
  | cons a rest ih =>
    intro visR m k v hw h
    simp only [phase2] at h
    cases h1 : routerHopOne sl a visR with
    | none =>
      rw [h1] at h
      simp at h
    | some q =>
      obtain ⟨a', ks, v1⟩ := q
      rw [h1] at h
      simp only [Option.bind_eq_bind, Option.some_bind] at h
      cases h2 : phase2 sl rest v1 with
      | none =>
        rw [h2] at h
        simp at h
      | some q2 =>
        obtain ⟨m2, k2, v2⟩ := q2
        rw [h2] at h
        simp only [Option.bind_eq_bind, Option.some_bind, Option.some.injEq, Prod.mk.injEq] at h
        obtain ⟨hm, hk, hv⟩ := h
        subst hv
        have hc1 := routerHopOne_count sl a visR a' ks v1 (hw a (by simp)) h1
        have hc2 := ih v1 m2 k2 v2 (fun x hx => hw x (by simp [hx])) h2
        rw [← hm, ← hk, ndCount_cons, List.length_append]
        omega

/-- Inversion of a successful round: the two phases ran and the new state is
the cleaned-up result. -/
theorem roundStep_ok_inv (disc : Option Nat) (rl sl : List (List Nat))
    (s s' : St) (h : roundStep disc rl sl s = .ok s') :
    ∃ m1 k1 v1 f1 m2 k2 v2,
      phase1 disc rl (s.ants.map activate) s.visS s.found = some (m1, k1, v1, f1) ∧
      phase2 sl ((m1 ++ k1).map activate) s.visR = some (m2, k2, v2) ∧
      s' = ⟨(m2 ++ k2).filter fun a => decide (¬ a.state = .dead), v1, v2, f1⟩ := by
  unfold roundStep at h
  split at h
  · exact absurd h (by simp)
  · split at h
    · exact absurd h (by simp)
    · rename_i m1 k1 v1 f1 hp1
      split at h
      · exact absurd h (by simp)
      · rename_i m2 k2 v2 hp2
        simp only [Except.ok.injEq] at h
        exact ⟨m1, k1, v1, f1, m2, k2, v2, hp1, hp2, h.symm⟩

/-- All ants are non-waiting after activation. -/
theorem map_activate_no_waiting (l : List Ant) :
    ∀ x ∈ l.map activate, x.state ≠ .waiting := by
  intro x hx
  obtain ⟨y, _, rfl⟩ := List.mem_map.mp hx
  exact activate_state y

/-- A successful round on a non-empty ant list strictly decreases the
measure: every surviving or newly spawned ant is paid for by a router visited
during the round, and the dying input ants pay for the strict decrease. -/
theorem roundStep_measure (disc : Option Nat) (rl sl : List (List Nat))
    (s s' : St) (hne : s.ants ≠ []) (h : roundStep disc rl sl s = .ok s') :
    antsMeasure rl sl s' < antsMeasure rl sl s := by
  obtain ⟨m1, k1, v1, f1, m2, k2, v2, hp1, hp2, hs'⟩ :=
    roundStep_ok_inv disc rl sl s s' h
  have hv1 := phase1_visA disc rl (s.ants.map activate) s.visS s.found m1 k1 v1 f1
    (map_activate_no_waiting _) hp1
  have hmono : countNotIn rl.flatten v1 ≤ countNotIn rl.flatten s.visS :=
    countNotIn_mono _ hv1.1
  have hc2 := phase2_count sl ((m1 ++ k1).map activate) s.visR m2 k2 v2
    (map_activate_no_waiting _) hp2
  have hk2 : ndCount k2 ≤ k2.length := ndCount_le_length k2
  have hlen : s'.ants.length = ndCount m2 + ndCount k2 := by
    rw [hs']
    show ndCount (m2 ++ k2) = _
    exact ndCount_append m2 k2
  have hpos : 0 < s.ants.length := List.length_pos.mpr hne
  have hvs : s'.visS = v1 := by rw [hs']
  have hvr : s'.visR = v2 := by rw [hs']
  unfold antsMeasure
  rw [hvs, hvr]
  omega

/-- A successful round preserves growth and Nodup of both visited lists. -/
theorem roundStep_pres (disc : Option Nat) (rl sl : List (List Nat))
    (s s' : St) (h : roundStep disc rl sl s = .ok s') :
    (∀ x ∈ s.visS, x ∈ s'.visS) ∧ (∀ x ∈ s'.visS, x ∈ s.visS ∨ x ∈ rl.flatten) ∧
    (s.visS.Nodup → s'.visS.Nodup) ∧
    (∀ x ∈ s.visR, x ∈ s'.visR) ∧ (∀ x ∈ s'.visR, x ∈ s.visR ∨ x ∈ sl.flatten) ∧
    (s.visR.Nodup → s'.visR.Nodup) := by
  obtain ⟨m1, k1, v1, f1, m2, k2, v2, hp1, hp2, hs'⟩ :=
    roundStep_ok_inv disc rl sl s s' h
  have hv1 := phase1_visA disc rl (s.ants.map activate) s.visS s.found m1 k1 v1 f1
    (map_activate_no_waiting _) hp1
  have hv2 := phase2_visA sl ((m1 ++ k1).map activate) s.visR m2 k2 v2
    (map_activate_no_waiting _) hp2
  have hvs : s'.visS = v1 := by rw [hs']
  have hvr : s'.visR = v2 := by rw [hs']
  rw [hvs, hvr]
  exact ⟨hv1.1, hv1.2.1, hv1.2.2, hv2.1, hv2.2.1, hv2.2.2⟩

/-- A finished run returned by the fueled loop has no ants left. -/
theorem runFuel_ok_nil (disc : Option Nat) (rl sl : List (List Nat)) :
    ∀ (fuel : Nat) (s s' : St),
      runFuel disc rl sl fuel s = some (.ok s') → s'.ants = [] := by
  intro fuel
  induction fuel with
  | zero =>
    intro s s' h
    unfold runFuel at h
    cases hants : s.ants with
    | nil =>
      rw [hants] at h
      simp only [Option.some.injEq, Except.ok.injEq] at h
      rw [← h]
      exact hants
    | cons a rest =>
      rw [hants] at h
      simp at h
  | succ fuel ih =>
    intro s s' h
    unfold runFuel at h
    cases hants : s.ants with
    | nil =>
      rw [hants] at h
      simp only [Option.some.injEq, Except.ok.injEq] at h
      rw [← h]
      exact hants
    | cons a rest =>
      rw [hants] at h
      cases hr : roundStep disc rl sl s with
      | error e =>
        rw [hr] at h
        simp at h
      | ok s1 =>
        rw [hr] at h
        exact ih s1 s' h

/-- Fuel at least the measure suffices for the loop to finish. -/
theorem runFuel_isSome (disc : Option Nat) (rl sl : List (List Nat)) :
    ∀ (fuel : Nat) (s : St), antsMeasure rl sl s ≤ fuel →
      (runFuel disc rl sl fuel s).isSome := by
  intro fuel
  induction fuel with
  | zero =>
    intro s hm
    have hlen : s.ants.length = 0 := by
      unfold antsMeasure at hm
      omega
    have hants : s.ants = [] := List.length_eq_zero.mp hlen
    unfold runFuel
    rw [hants]
    simp
  | succ fuel ih =>
    intro s hm
    unfold runFuel
    cases hants : s.ants with
    | nil => simp
    | cons a rest =>
      cases hr : roundStep disc rl sl s with
      | error e => simp
      | ok s1 =>
        have hlt := roundStep_measure disc rl sl s s1 (by rw [hants]; simp) hr
        exact ih s1 (by omega)

/-- Any property preserved by successful rounds holds at the end of a
successful fueled run. -/
theorem runFuel_preserve (disc : Option Nat) (rl sl : List (List Nat))
    (P : St → Prop)
    (hstep : ∀ t t', roundStep disc rl sl t = .ok t' → P t → P t') :
    ∀ (fuel : Nat) (s s' : St), P s →
      runFuel disc rl sl fuel s = some (.ok s') → P s' := by
  intro fuel
  induction fuel with
  | zero =>
    intro s s' hP h
    unfold runFuel at h
    cases hants : s.ants with
    | nil =>
      rw [hants] at h
      simp only [Option.some.injEq, Except.ok.injEq] at h
      rw [← h]
      exact hP
    | cons a rest =>
      rw [hants] at h
      simp at h
  | succ fuel ih =>
    intro s s' hP h
    unfold runFuel at h
    cases hants : s.ants with
    | nil =>
      rw [hants] at h
      simp only [Option.some.injEq, Except.ok.injEq] at h
      rw [← h]
      exact hP
    | cons a rest =>
      rw [hants] at h
      cases hr : roundStep disc rl sl s with
      | error e =>
        rw [hr] at h
        simp at h
      | ok s1 =>
        rw [hr] at h
        exact ih s1 s' (hstep s s1 hr hP) h

/-- The round loop always terminates: it either aborts with an error or ends
with no ants remaining. -/
theorem runAnts_terminal (disc : Option Nat) (rl sl : List (List Nat)) (s : St) :
    (∃ e, runAnts disc rl sl s = .error e) ∨
    ∃ s', runAnts disc rl sl s = .ok s' ∧ s'.ants = [] := by
  have hsome := runFuel_isSome disc rl sl (antsMeasure rl sl s) s (le_refl _)
  unfold runAnts
  cases hr : runFuel disc rl sl (antsMeasure rl sl s) s with
  | none =>
    rw [hr] at hsome
    simp at hsome
  | some r =>
    cases r with
    | error e => exact Or.inl ⟨e, rfl⟩
    | ok s' => exact Or.inr ⟨s', rfl, runFuel_ok_nil disc rl sl _ s s' hr⟩

/-- Any property preserved by successful rounds holds at the end of a
successful run. -/
theorem runAnts_preserve (disc : Option Nat) (rl sl : List (List Nat))
    (P : St → Prop)
    (hstep : ∀ t t', roundStep disc rl sl t = .ok t' → P t → P t')
    (s s' : St) (hP : P s) (h : runAnts disc rl sl s = .ok s') : P s' := by
  unfold runAnts at h
  cases hr : runFuel disc rl sl (antsMeasure rl sl s) s with
  | none =>
    rw [hr] at h
    simp at h
  | some r =>
    rw [hr] at h
    subst h
    exact runFuel_preserve disc rl sl P hstep _ s s' hP hr

/-- Inversion of a successful discovery process. -/
theorem antsDiscoveryProcess_ok_inv (disc : Option Nat) (rl sl : List (List Nat))
    (subnetStart : Nat) (vs vr : List Nat) (fd : List (List Nat))
    (h : antsDiscoveryProcess disc rl sl subnetStart = .ok (vs, vr, fd)) :
    ∃ s', runAnts disc rl sl (initState sl subnetStart) = .ok s' ∧
      s'.visS = vs ∧ s'.visR = vr ∧ s'.found = fd ∧ s'.ants = [] := by
  unfold antsDiscoveryProcess at h
  cases hr : runAnts disc rl sl (initState sl subnetStart) with
  | error e =>
    rw [hr] at h
    simp [Except.map] at h
  | ok s' =>
    rw [hr] at h
    simp only [Except.map, Option.some.injEq, Except.ok.injEq, Prod.mk.injEq] at h
    obtain ⟨hvs, hvr, hfd⟩ := h
    rcases runAnts_terminal disc rl sl (initState sl subnetStart) with ⟨e, he⟩ | ⟨s2, h2, hnil⟩
    · rw [he] at hr
      cases hr
    · rw [h2] at hr
      injection hr with hr2
      subst hr2
      exact ⟨s2, rfl, hvs, hvr, hfd, hnil⟩

/-- After a successful sweep the visited-subnet list has no duplicates and
only contains valid subnet uids. -/
theorem sweep_visS_inv (n : Nat) (disc : Option Nat) (rl sl : List (List Nat))
    (subnetStart : Nat) (vs vr : List Nat) (fd : List (List Nat))
    (hrl : ∀ l ∈ rl, ∀ x ∈ l, x < n) (hstart : subnetStart < n)
    (h : antsDiscoveryProcess disc rl sl subnetStart = .ok (vs, vr, fd)) :
    vs.Nodup ∧ ∀ x ∈ vs, x < n := by
  obtain ⟨s', hrun, hvs, _, _, _⟩ :=
    antsDiscoveryProcess_ok_inv disc rl sl subnetStart vs vr fd h
  have hflat : ∀ x ∈ rl.flatten, x < n := by
    intro x hx
    obtain ⟨l, hl, hxl⟩ := List.mem_flatten.mp hx
    exact hrl l hl x hxl
  have hP := runAnts_preserve disc rl sl
    (fun t => t.visS.Nodup ∧ ∀ x ∈ t.visS, x < n)
    (by
      intro t t' hstep ⟨hnd, hb⟩
      obtain ⟨_, ho, hn, _, _, _⟩ := roundStep_pres disc rl sl t t' hstep
      refine ⟨hn hnd, ?_⟩
      intro x hx
      rcases ho x hx with hx' | hx'
      · exact hb x hx'
      · exact hflat x hx')
    (initState sl subnetStart) s'
    (by
      constructor
      · exact List.nodup_singleton _
      · intro x hx
        rw [List.mem_singleton.mp hx]
        exact hstart)
    hrun
  rw [← hvs]
  exact hP

/-- Counting the unvisited subnets: with a duplicate-free, in-range visited
list, subtracting its length from the total counts the missing uids. -/
theorem unvisited_count (n : Nat) (vs : List Nat) (hnd : vs.Nodup)
    (hb : ∀ x ∈ vs, x < n) :
    n - vs.length = ((List.range n).filter fun j => decide (j ∉ vs)).length := by
  have hperm : vs.Perm ((List.range n).filter fun j => decide (j ∈ vs)) := by
    rw [List.perm_ext_iff_of_nodup hnd ((List.nodup_range n).filter _)]
    intro a
    simp only [List.mem_filter, List.mem_range, decide_eq_true_eq]
    constructor
    · intro ha
      exact ⟨hb a ha, ha⟩
    · intro ha
      exact ha.2
  have hlen : vs.length = ((List.range n).filter fun j => decide (j ∈ vs)).length :=
    hperm.length_eq
  have hsplit := length_filter_add_length_filter_not (List.range n)
    fun j => decide (j ∈ vs)
  have hcongr : ((List.range n).filter fun j => ! decide (j ∈ vs)) =
      ((List.range n).filter fun j => decide (j ∉ vs)) := by
    apply List.filter_congr
    intro j _
    simp
  rw [hcongr] at hsplit
  rw [List.length_range] at hsplit
  omega

/-- Claim C4: for a well-formed adjacency view whose sweep completes with
visited subnets vs, sweep_network raises UnreachableNetwork exactly when some
subnet uid below numSubnets is missing from vs; the reported total is then
exactly the number of missing uids, and when every subnet was visited the
sweep returns without error. -/
theorem c4_sweep_unreachable (n : Nat) (rl sl : List (List Nat)) (start : Nat)
    (hrl : ∀ l ∈ rl, ∀ x ∈ l, x < n) (hstart : start < n)
    (vs vr : List Nat) (fd : List (List Nat))
    (hok : antsDiscoveryProcess Option.none rl sl start = .ok (vs, vr, fd)) :
    ((∃ j t, sweepNetwork n rl sl start = .error (.unreachable j t)) ↔
      ∃ j, j < n ∧ j ∉ vs) ∧
    (∀ j t, sweepNetwork n rl sl start = .error (.unreachable j t) →
      t = ((List.range n).filter fun j => decide (j ∉ vs)).length) ∧
    ((∀ j, j < n → j ∈ vs) → sweepNetwork n rl sl start = .ok ()) := by
  obtain ⟨hnd, hb⟩ := sweep_visS_inv n Option.none rl sl start vs vr fd hrl hstart hok
  have hcount := unvisited_count n vs hnd hb
  have hsw : sweepNetwork n rl sl start =
      match (List.range n).find? fun j => decide (j ∉ vs) with
      | some j => .error (.unreachable j (n - vs.length))
      | Option.none => .ok () := by
    unfold sweepNetwork
    rw [hok]
  cases hfind : (List.range n).find? fun j => decide (j ∉ vs) with
  | some j =>
    rw [hfind] at hsw
    have hj1 : j ∉ vs := by
      have := List.find?_some hfind
      simpa using this
    have hj2 : j < n := List.mem_range.mp (List.mem_of_find?_eq_some hfind)
    refine ⟨⟨fun _ => ⟨j, hj2, hj1⟩, fun _ => ⟨j, n - vs.length, hsw⟩⟩, ?_, ?_⟩
    · intro j' t' he
      rw [hsw] at he
      simp only [Except.error.injEq, SweepErr.unreachable.injEq] at he
      rw [← he.2]
      exact hcount
    · intro hall
      exact absurd (hall j hj2) hj1
  | none =>
    rw [hfind] at hsw
    have hnone := List.find?_eq_none.mp hfind
    refine ⟨⟨?_, ?_⟩, ?_, fun _ => hsw⟩
    · rintro ⟨j, t, he⟩
      rw [hsw] at he
      cases he
    · rintro ⟨j, hj, hjv⟩
      exact absurd (by simpa using hnone j (List.mem_range.mpr hj)) (by simp [hjv])
    · intro j t he
      rw [hsw] at he
      cases he

/-- Witness for claim C4 on the spec's two-subnet example topology. -/
theorem c4_witness :
    ((∀ l ∈ ([[0], [0, 1]] : List (List Nat)), ∀ x ∈ l, x < 2) ∧ 0 < 2 ∧
      antsDiscoveryProcess Option.none [[0], [0, 1]] [[0, 1], [1]] 0 =
        .ok ([0, 1], [0, 1], [])) ∧
    (((∃ j t, sweepNetwork 2 [[0], [0, 1]] [[0, 1], [1]] 0 =
          .error (.unreachable j t)) ↔
        ∃ j, j < 2 ∧ j ∉ ([0, 1] : List Nat)) ∧
      (∀ j t, sweepNetwork 2 [[0], [0, 1]] [[0, 1], [1]] 0 =
          .error (.unreachable j t) →
        t = ((List.range 2).filter fun j => decide (j ∉ ([0, 1] : List Nat))).length) ∧
      ((∀ j, j < 2 → j ∈ ([0, 1] : List Nat)) →
        sweepNetwork 2 [[0], [0, 1]] [[0, 1], [1]] 0 = .ok ())) :=
  ⟨⟨by decide, by decide, rfl⟩,
    c4_sweep_unreachable 2 [[0], [0, 1]] [[0, 1], [1]] 0 (by decide) (by decide)
      [0, 1] [0, 1] [] rfl⟩

/-- Claim C8 fails as stated: on the buildable topology of 101 routers all
attached to subnet 0 (a /24 subnet can hold them), the sweep's first round
trips the agent-population ceiling and aborts with a RecursionError, so the
round loop terminates without ever reaching a state with no agents
remaining. -/
theorem c8_counterexample :
    antsDiscoveryProcess Option.none (List.replicate 101 [0]) [List.range 101] 0 =
      .error .tooManyAnts := by
  set_option maxRecDepth 10000 in rfl

/-- Claim C8 amended: every discovery run (sweep or find, on any adjacency
view) terminates; the round loop either aborts with an error (the >100
population ceiling or a defensive exception) or reaches a state with no
agents remaining, and in the latter case the global visited-sets contain each
subnet and each router at most once (given distinct routers on the starting
subnet). -/
theorem c8_termination (disc : Option Nat) (rl sl : List (List Nat))
    (start : Nat) (hnd : (sl.getD start []).Nodup) :
    (∃ e, runAnts disc rl sl (initState sl start) = .error e) ∨
    ∃ s', runAnts disc rl sl (initState sl start) = .ok s' ∧ s'.ants = [] ∧
      s'.visS.Nodup ∧ s'.visR.Nodup := by
  rcases runAnts_terminal disc rl sl (initState sl start) with he | ⟨s', hs', hnil⟩
  · exact Or.inl he
  · refine Or.inr ⟨s', hs', hnil, ?_⟩
    have hP := runAnts_preserve disc rl sl
      (fun t => t.visS.Nodup ∧ t.visR.Nodup)
      (by
        intro t t' hstep ⟨h1, h2⟩
        obtain ⟨_, _, hn1, _, _, hn2⟩ := roundStep_pres disc rl sl t t' hstep
        exact ⟨hn1 h1, hn2 h2⟩)
      (initState sl start) s' ⟨List.nodup_singleton _, hnd⟩ hs'
    exact hP

/-- Witness for the amended claim C8 on a concrete find run. -/
theorem c8_witness :
    (([[0, 1], [1]].getD 0 [] : List Nat).Nodup ∧
      ((∃ e, runAnts (some 1) [[0], [0, 1]] [[0, 1], [1]]
          (initState [[0, 1], [1]] 0) = .error e) ∨
        ∃ s', runAnts (some 1) [[0], [0, 1]] [[0, 1], [1]]
            (initState [[0, 1], [1]] 0) = .ok s' ∧ s'.ants = [] ∧
          s'.visS.Nodup ∧ s'.visR.Nodup)) :=
  ⟨by decide, c8_termination (some 1) [[0], [0, 1]] [[0, 1], [1]] 0 (by decide)⟩

end RTG
